import Mathlib

/-!
Verification of the logical-device aggregation engine of `xknxproject`
(`xknxproject/logical_devices.py`).

The Python module is embedded shallowly:

* `TypedDict` records become Lean structures with the same field names.
* Python `dict`s (which preserve insertion order and have unique keys)
  become association lists `List (String × α)`; `dictGet` models
  `d.get(k)` / `d[k]` lookup.
* Python `set`s are modelled by duplicate-free lists together with an
  explicit iteration order: `_gather_comm_object_ids` returns a set, so
  the aggregation loop is parameterised over the enumeration `order` of
  that set, and `gather_comm_object_ids` fixes one canonical enumeration
  (first-occurrence order).  Properties that do not depend on the chosen
  enumeration are proved for every duplicate-free enumeration.
* Python `sorted` / `list.sort` are stable sorts with respect to a total
  preorder on the sort keys; they are modelled by a stable insertion
  sort (`stableSort`), which computes the same list as any stable sort.
  `sorted` raises `TypeError` when it has to compare an `int` key with a
  `str` key; `sort_group_addresses` therefore returns `Except`, erring
  exactly when its key list mixes the two kinds.
* Python `str.split(".")` and `int(...)` are modelled on the character
  list of the string (`splitOnChar`, `pyIntOfChars`); `int(...)` accepts
  an optional sign followed by a non-empty digit string.
* File-system paths are modelled by `PyPath` (a parent plus a final
  name); reading, JSON decoding and the external `.knxproj` parser are
  collaborators outside this module, so the export entry points take the
  already-decoded project as an argument and return the written location
  together with the written payload instead of performing I/O.
-/

namespace XKnx

/-- `DPTType` record: datatype descriptor of a group address. -/
structure DPTType where
  main : Nat
  sub : Option Nat
deriving DecidableEq

/-- `Channel` record of a `Device`. -/
structure Channel where
  name : String
  communication_object_ids : List String
deriving DecidableEq

/-- `Device` record of the project model. -/
structure Device where
  name : String
  hardware_name : String
  manufacturer_name : String
  order_number : String
  application : Option String
  communication_object_ids : List String
  channels : List (String × Channel)
deriving DecidableEq

/-- `CommunicationObject` record of the project model. -/
structure CommunicationObject where
  name : String
  number : Int
  text : String
  function_text : String
  description : String
  channel : Option String
  group_address_links : List String
deriving DecidableEq

/-- `GroupAddress` record of the project model. -/
structure GroupAddress where
  address : String
  name : String
  project_uid : Option Int
  dpt : Option DPTType
  data_secure : Bool
  description : String
  comment : String
  raw_address : Int
deriving DecidableEq

/-- The project model consumed by `build_logical_device_view`.  `info` is
the opaque project-metadata block, modelled as an optional opaque string;
`none` models an absent `info` key (exported as `{}`). -/
structure KNXProject where
  devices : List (String × Device)
  communication_objects : List (String × CommunicationObject)
  group_addresses : List (String × GroupAddress)
  info : Option String
deriving DecidableEq

/-- Output record `CommunicationObjectLink`. -/
structure CommunicationObjectLink where
  id : String
  name : String
  number : Int
  text : String
  function_text : String
  description : String
  channel : Option String
  channel_name : Option String
deriving DecidableEq

/-- Output record `LogicalDeviceGroupAddress`. -/
structure LogicalDeviceGroupAddress where
  address : String
  name : String
  project_uid : Option Int
  dpt : Option DPTType
  data_secure : Bool
  description : String
  comment : String
  communication_objects : List CommunicationObjectLink
deriving DecidableEq

/-- Output record `LogicalDeviceSummary`. -/
structure LogicalDeviceSummary where
  individual_address : String
  name : String
  hardware_name : String
  manufacturer_name : String
  order_number : String
  application : Option String
  group_addresses : List LogicalDeviceGroupAddress
deriving DecidableEq

/-- Lookup in a Python `dict` modelled as an association list. -/
def dictGet {α : Type} : List (String × α) → String → Option α
  | [], _ => none
  | (k, v) :: rest, key => if k = key then some v else dictGet rest key

/-- Python `str.split` with a single-character separator, on the
character list of the string: `"".split(".") == [""]`, separators at the
ends produce empty segments. -/
def splitOnChar (sep : Char) : List Char → List (List Char)
  | [] => [[]]
  | c :: rest =>
    match splitOnChar sep rest with
    | [] => [[c]]
    | seg :: segs => if c = sep then [] :: seg :: segs else (c :: seg) :: segs

/-- Numeric value of a digit list (most significant first). -/
def digitsToNat (l : List Char) : Nat :=
  l.foldl (fun acc c => acc * 10 + (c.toNat - 48)) 0

/-- Python `int(s)` on the character list of `s`: an optional sign
followed by a non-empty digit string; `none` models `ValueError`. -/
def pyIntOfChars (l : List Char) : Option Int :=
  let signed : Bool × List Char :=
    match l with
    | '-' :: rest => (true, rest)
    | '+' :: rest => (false, rest)
    | _ => (false, l)
  if signed.2 ≠ [] ∧ signed.2.all Char.isDigit then
    some (if signed.1 then -(digitsToNat signed.2 : Int) else (digitsToNat signed.2 : Int))
  else
    none

/-- `tuple(int(part) for part in parts)`: `some` of all parsed segments,
`none` as soon as one segment fails to parse. -/
def parseSegments : List (List Char) → Option (List Int)
  | [] => some []
  | seg :: rest =>
    match pyIntOfChars seg, parseSegments rest with
    | some v, some vs => some (v :: vs)
    | _, _ => none

/-- `_individual_address_sort_key`: split on `"."`, parse every segment
as an integer; on any `ValueError` fall back to `(0, 0, 0)`.  The key is
a tuple (here: a list) whose length is the number of segments. -/
def individual_address_sort_key (s : String) : List Int :=
  match parseSegments (splitOnChar '.' s.data) with
  | some ks => ks
  | none => [0, 0, 0]

/-- Python tuple `<=` on integer tuples (lexicographic). -/
def listIntLe : List Int → List Int → Bool
  | [], _ => true
  | _ :: _, [] => false
  | a :: as, b :: bs =>
    if a < b then true else if b < a then false else listIntLe as bs

/-- Python string `<=` (lexicographic by code point) on character lists. -/
def charListLe : List Char → List Char → Bool
  | [], _ => true
  | _ :: _, [] => false
  | a :: as, b :: bs =>
    if a.toNat < b.toNat then true
    else if b.toNat < a.toNat then false
    else charListLe as bs

/-- Python string `<=`. -/
def pyStrLe (a b : String) : Bool := charListLe a.data b.data

/-- Stable insertion of `a` into `l`: before the first element `b` with
`le a b`.  Together with `stableSort` this computes the stable sort with
respect to the total preorder `le`, i.e. the list Python `sorted`
returns. -/
def insertLe {α : Type} (le : α → α → Bool) (a : α) : List α → List α
  | [] => [a]
  | b :: l => if le a b then a :: b :: l else b :: insertLe le a l

/-- Stable sort by the total preorder `le`; models Python `sorted` /
`list.sort` (Timsort is stable, and stable sorts agree). -/
def stableSort {α : Type} (le : α → α → Bool) : List α → List α
  | [] => []
  | a :: l => insertLe le a (stableSort le l)

/-- `_channel_name`. -/
def channel_name (device : Device) (channel_id : Option String) : Option String :=
  match channel_id with
  | none => none
  | some cid =>
    match dictGet device.channels cid with
    | some ch => some ch.name
    | none => none

/-- `_build_group_address_entry`. -/
def build_group_address_entry (group_address : String)
    (group_address_data : Option GroupAddress) : LogicalDeviceGroupAddress :=
  match group_address_data with
  | some ga =>
    { address := ga.address
      name := ga.name
      project_uid := ga.project_uid
      dpt := ga.dpt
      data_secure := ga.data_secure
      description := ga.description
      comment := ga.comment
      communication_objects := [] }
  | none =>
    { address := group_address
      name := ""
      project_uid := none
      dpt := none
      data_secure := false
      description := ""
      comment := ""
      communication_objects := [] }

/-- `_summarize_comm_object`. -/
def summarize_comm_object (comm_object_id : String) (comm_object : CommunicationObject)
    (chan_name : Option String) : CommunicationObjectLink :=
  { id := comm_object_id
    name := comm_object.name
    number := comm_object.number
    text := comm_object.text
    function_text := comm_object.function_text
    description := comm_object.description
    channel := comm_object.channel
    channel_name := chan_name }

/-- The Python sort key of `_sort_group_addresses` is `int | str`. -/
inductive BusSortKey where
  | num (n : Int)
  | str (s : String)
deriving DecidableEq

/-- Whether a bus sort key is the `int` alternative. -/
def BusSortKey.isNum : BusSortKey → Bool
  | .num _ => true
  | .str _ => false

/-- Whether a bus sort key is the `str` alternative. -/
def BusSortKey.isStr : BusSortKey → Bool
  | .num _ => false
  | .str _ => true

/-- `sort_key` of `_sort_group_addresses`: the precomputed numeric raw
address when the entry's address is a key of the bus table, otherwise
the address string itself. -/
def bus_sort_key (group_addresses : List (String × GroupAddress))
    (entry : LogicalDeviceGroupAddress) : BusSortKey :=
  match dictGet group_addresses entry.address with
  | some ga => .num ga.raw_address
  | none => .str entry.address

/-- Order on bus sort keys.  Python only ever compares keys of the same
kind (mixed comparisons raise `TypeError` before any order is produced,
see `sort_group_addresses`); the two cross cases below are therefore
never exercised by the embedding and are fixed arbitrarily. -/
def busKeyLe : BusSortKey → BusSortKey → Bool
  | .num a, .num b => decide (a ≤ b)
  | .str a, .str b => pyStrLe a b
  | .num _, .str _ => true
  | .str _, .num _ => false

/-- Entry order used by `_sort_group_addresses`. -/
def entryLe (group_addresses : List (String × GroupAddress))
    (a b : LogicalDeviceGroupAddress) : Bool :=
  busKeyLe (bus_sort_key group_addresses a) (bus_sort_key group_addresses b)

/-- The message of the `TypeError` Python raises when `sorted` compares
an `int` key with a `str` key. -/
def mixedKeyError : String :=
  "TypeError: '<' not supported between instances of 'str' and 'int'"

/-- `_sort_group_addresses`: sort the accumulated entries by
`bus_sort_key`.  When the key list holds both an `int` and a `str` key,
Python's `sorted` necessarily compares two keys of different kinds and
raises `TypeError`; otherwise it returns the stable sort. -/
def sort_group_addresses (grouped_addresses : List (String × LogicalDeviceGroupAddress))
    (group_addresses : List (String × GroupAddress)) :
    Except String (List LogicalDeviceGroupAddress) :=
  if ((grouped_addresses.map Prod.snd).map (bus_sort_key group_addresses)).any
        BusSortKey.isNum &&
      ((grouped_addresses.map Prod.snd).map (bus_sort_key group_addresses)).any
        BusSortKey.isStr then
    .error mixedKeyError
  else
    .ok (stableSort (entryLe group_addresses) (grouped_addresses.map Prod.snd))

/-- Tuple order `(number, id)` used for the communication-object links
within one bus entry. -/
def linkLe (a b : CommunicationObjectLink) : Bool :=
  if a.number < b.number then true
  else if b.number < a.number then false
  else pyStrLe a.id b.id

/-- State of the aggregation loop of `_collect_group_addresses`:
`grouped` models the insertion-ordered dict `grouped_addresses`,
`processed` the set `processed_links` of `(group address, comm object
id)` pairs. -/
structure AggState where
  grouped : List (String × LogicalDeviceGroupAddress)
  processed : List (String × String)
deriving DecidableEq

/-- `grouped_addresses.setdefault(ga, _build_group_address_entry(...))`
followed by appending `link` to the entry's `communication_objects`. -/
def addLink (grouped : List (String × LogicalDeviceGroupAddress)) (ga : String)
    (gaData : Option GroupAddress) (link : CommunicationObjectLink) :
    List (String × LogicalDeviceGroupAddress) :=
  match grouped with
  | [] =>
    [(ga, { build_group_address_entry ga gaData with communication_objects := [link] })]
  | (k, e) :: rest =>
    if k = ga then
      (k, { e with communication_objects := e.communication_objects ++ [link] }) :: rest
    else
      (k, e) :: addLink rest ga gaData link

/-- The inner loop of `_collect_group_addresses` over one communication
object's `group_address_links`. -/
def processLinks (group_addresses : List (String × GroupAddress)) (comm_object_id : String)
    (link : CommunicationObjectLink) : AggState → List String → AggState
  | st, [] => st
  | st, ga :: rest =>
    if (ga, comm_object_id) ∈ st.processed then
      processLinks group_addresses comm_object_id link st rest
    else
      processLinks group_addresses comm_object_id link
        { grouped := addLink st.grouped ga (dictGet group_addresses ga) link
          processed := (ga, comm_object_id) :: st.processed }
        rest

/-- The outer loop body of `_collect_group_addresses`: skip identifiers
absent from the endpoint table, otherwise scan the endpoint's link
list. -/
def processCommObject (device : Device)
    (communication_objects : List (String × CommunicationObject))
    (group_addresses : List (String × GroupAddress))
    (st : AggState) (comm_object_id : String) : AggState :=
  match dictGet communication_objects comm_object_id with
  | none => st
  | some co =>
    processLinks group_addresses comm_object_id
      (summarize_comm_object comm_object_id co (channel_name device co.channel))
      st co.group_address_links

/-- The aggregation loop of `_collect_group_addresses`, run over the
enumeration `order` of the device's endpoint-identifier set. -/
def aggregate_state (order : List String) (device : Device)
    (communication_objects : List (String × CommunicationObject))
    (group_addresses : List (String × GroupAddress)) : AggState :=
  order.foldl (processCommObject device communication_objects group_addresses)
    { grouped := [], processed := [] }

/-- `group["communication_objects"].sort(key=lambda co: (co["number"], co["id"]))`. -/
def sortEntryLinks (e : LogicalDeviceGroupAddress) : LogicalDeviceGroupAddress :=
  { e with communication_objects := stableSort linkLe e.communication_objects }

/-- `_collect_group_addresses`, parameterised over the enumeration
`order` of the device's endpoint-identifier set. -/
def collect_group_addresses (order : List String) (device : Device)
    (communication_objects : List (String × CommunicationObject))
    (group_addresses : List (String × GroupAddress)) :
    Except String (List LogicalDeviceGroupAddress) :=
  match sort_group_addresses (aggregate_state order device communication_objects
      group_addresses).grouped group_addresses with
  | .error e => .error e
  | .ok sorted_groups => .ok (sorted_groups.map sortEntryLinks)

/-- First-occurrence deduplication (the element order of a Python set is
unspecified; this fixes one canonical duplicate-free enumeration). -/
def firstDedupAux (seen : List String) : List String → List String
  | [] => []
  | a :: l =>
    if a ∈ seen then firstDedupAux seen l else a :: firstDedupAux (a :: seen) l

/-- First-occurrence deduplication of a list. -/
def firstDedup (l : List String) : List String := firstDedupAux [] l

/-- `_gather_comm_object_ids`: the set union of the device-level
endpoint identifiers with every channel's endpoint identifiers,
enumerated in first-occurrence order. -/
def gather_comm_object_ids (device : Device) : List String :=
  firstDedup (device.communication_object_ids ++
    (device.channels.map (fun p => p.2.communication_object_ids)).flatten)

/-- The per-device loop of `build_logical_device_view`, over the already
sorted device list; an error from the aggregation propagates. -/
def buildSummaries (communication_objects : List (String × CommunicationObject))
    (group_addresses : List (String × GroupAddress)) :
    List (String × Device) → Except String (List LogicalDeviceSummary)
  | [] => .ok []
  | (individual_address, device) :: rest =>
    match collect_group_addresses (gather_comm_object_ids device) device
        communication_objects group_addresses with
    | .error e => .error e
    | .ok grouped =>
      match buildSummaries communication_objects group_addresses rest with
      | .error e => .error e
      | .ok others =>
        .ok ({ individual_address := individual_address
               name := device.name
               hardware_name := device.hardware_name
               manufacturer_name := device.manufacturer_name
               order_number := device.order_number
               application := device.application
               group_addresses := grouped } :: others)

/-- `build_logical_device_view`: devices in ascending order of their
individual-address sort key (stable w.r.t. the project dict's insertion
order), each paired with its aggregated group addresses. -/
def build_logical_device_view (project : KNXProject) :
    Except String (List LogicalDeviceSummary) :=
  buildSummaries project.communication_objects project.group_addresses
    (stableSort
      (fun a b => listIntLe (individual_address_sort_key a.1) (individual_address_sort_key b.1))
      project.devices)

/-- The payload written by both export entry points; `project` is the
input's `info` block (`none` models the `{}` default of
`project.get("info", {})`). -/
structure ExportPayload where
  project : Option String
  devices : List LogicalDeviceSummary
deriving DecidableEq

/-- `_build_payload`. -/
def build_payload (project : KNXProject) : Except String ExportPayload :=
  match build_logical_device_view project with
  | .error e => .error e
  | .ok devs => .ok { project := project.info, devices := devs }

/-- A file-system location: a parent directory plus a final name. -/
structure PyPath where
  parent : List String
  name : String
deriving DecidableEq

/-- Index of the last `'.'` in a character list. -/
def lastDotIndexAux : List Char → Nat → Option Nat → Option Nat
  | [], _, acc => acc
  | c :: rest, i, acc =>
    lastDotIndexAux rest (i + 1) (if c = '.' then some i else acc)

/-- `pathlib.PurePath.stem`: the final name without its last suffix; a
dot at the very start or at the very end does not begin a suffix. -/
def pyStem (name : String) : String :=
  match lastDotIndexAux name.data 0 none with
  | some i =>
    if 0 < i ∧ i + 1 < name.data.length then String.mk (name.data.take i) else name
  | none => name

/-- `path.with_name(n)`. -/
def withName (p : PyPath) (n : String) : PyPath := { parent := p.parent, name := n }

/-- `export_logical_devices`.  Reading the input file and decoding its
JSON are external I/O; the decoded project model is the `project`
argument.  The result pairs the location actually written with the
payload written there. -/
def export_logical_devices (input_path : PyPath) (project : KNXProject)
    (output_path : Option PyPath) : Except String (PyPath × ExportPayload) :=
  match build_payload project with
  | .error e => .error e
  | .ok payload =>
    let final_output :=
      match output_path with
      | some p => p
      | none => withName input_path (pyStem input_path.name ++ "_logical_devices.json")
    .ok (final_output, payload)

/-- `export_logical_devices_from_knxproj`.  The archive parse
(`XKNXProj(...).parse()`) is delegated to the external ProjectParser
collaborator; its result is the `parsed` argument. -/
def export_logical_devices_from_knxproj (input_path : PyPath) (parsed : KNXProject)
    (output_path : Option PyPath) : Except String (PyPath × ExportPayload) :=
  match build_payload parsed with
  | .error e => .error e
  | .ok payload =>
    let final_output :=
      match output_path with
      | some p => p
      | none => withName input_path (pyStem input_path.name ++ "_logical_devices.json")
    .ok (final_output, payload)

deriving instance DecidableEq for Except

/-! ### Derived notions used to state and prove the properties -/

/-- The link list of the endpoint `id`, empty when `id` is absent from
the endpoint table. -/
def linksOf (communication_objects : List (String × CommunicationObject))
    (id : String) : List String :=
  match dictGet communication_objects id with
  | some co => co.group_address_links
  | none => []

/-- Whether the endpoint identifier `id` is present in the endpoint
table. -/
def resolvesB (communication_objects : List (String × CommunicationObject))
    (id : String) : Bool :=
  (dictGet communication_objects id).isSome

/-- The `CommunicationObjectLink` the aggregation loop builds for the
endpoint `id`, `none` when `id` is absent from the endpoint table. -/
def linkFor (device : Device) (communication_objects : List (String × CommunicationObject))
    (id : String) : Option CommunicationObjectLink :=
  match dictGet communication_objects id with
  | some co => some (summarize_comm_object id co (channel_name device co.channel))
  | none => none

/-- The endpoint identifiers of `order` that resolve and whose link list
holds the bus address `ga`, in `order`'s order. -/
def contributors (communication_objects : List (String × CommunicationObject))
    (order : List String) (ga : String) : List String :=
  order.filter (fun id => resolvesB communication_objects id &&
    decide (ga ∈ linksOf communication_objects id))

/-- Closed form of one accumulated bus entry: the entry the aggregation
loop has built for the bus address `ga` after scanning `order`. -/
def entry_formula (device : Device)
    (communication_objects : List (String × CommunicationObject))
    (group_addresses : List (String × GroupAddress))
    (order : List String) (ga : String) : Option LogicalDeviceGroupAddress :=
  if contributors communication_objects order ga = [] then none
  else
    some { build_group_address_entry ga (dictGet group_addresses ga) with
           communication_objects :=
             (contributors communication_objects order ga).filterMap
               (linkFor device communication_objects) }

/-- Invariant of the aggregation loop after scanning the identifiers
`done`: `processed` holds exactly the observed `(bus, endpoint)` pairs,
every accumulated bus entry matches its closed form, and the bus-address
keys are duplicate-free. -/
def AggInv (device : Device)
    (communication_objects : List (String × CommunicationObject))
    (group_addresses : List (String × GroupAddress))
    (done : List String) (st : AggState) : Prop :=
  (∀ p : String × String, p ∈ st.processed ↔
    (p.2 ∈ done ∧ resolvesB communication_objects p.2 = true ∧
      p.1 ∈ linksOf communication_objects p.2))
  ∧ (∀ ga, dictGet st.grouped ga =
      entry_formula device communication_objects group_addresses done ga)
  ∧ (st.grouped.map Prod.fst).Nodup

/-- The bus address `ga` is referenced by some resolving endpoint of the
enumeration `order`. -/
def referencedBy (communication_objects : List (String × CommunicationObject))
    (order : List String) (ga : String) : Prop :=
  contributors communication_objects order ga ≠ []

/-- The bus sort key of the entry grouped under the bus address `ga`
(the entry's `address` field is the table record's stored address when
`ga` is a key of the bus table, else `ga` itself). -/
def group_key_for (group_addresses : List (String × GroupAddress))
    (ga : String) : BusSortKey :=
  bus_sort_key group_addresses (build_group_address_entry ga (dictGet group_addresses ga))

/-- The ascending `(number, identifier)` tuple order on links, as a
proposition. -/
def LinkKeyLe (a b : CommunicationObjectLink) : Prop :=
  a.number < b.number ∨ (a.number = b.number ∧ pyStrLe a.id b.id = true)

/-- A throwaway entry used as an `Option.getD` default. -/
def junkEntry : LogicalDeviceGroupAddress := build_group_address_entry "" none

/-! ### Concrete sample data used by witnesses and counterexamples -/

/-- A bus table record for the bus `"1/0/5"`. -/
def gaLight : GroupAddress :=
  { address := "1/0/5", name := "Light", project_uid := some 7
    dpt := some { main := 1, sub := none }, data_secure := false
    description := "", comment := "", raw_address := 2053 }

/-- A bus table record for the bus `"2/0/1"`. -/
def gaSecond : GroupAddress :=
  { address := "2/0/1", name := "Second", project_uid := none
    dpt := none, data_secure := true, description := "d", comment := "c"
    raw_address := 4097 }

/-- A device-level endpoint whose link list repeats `"1/0/5"`. -/
def coE1 : CommunicationObject :=
  { name := "Ausgang B", number := 3, text := "t", function_text := "f"
    description := "", channel := none
    group_address_links := ["1/0/5", "1/0/5"] }

/-- A channel-scoped endpoint sharing number 3 with `coE1`. -/
def coE2 : CommunicationObject :=
  { name := "Ausgang C", number := 3, text := "", function_text := ""
    description := "", channel := some "CH1"
    group_address_links := ["1/0/5", "2/0/1"] }

/-- A device owning `coE1` directly and `coE2` through its channel. -/
def sampleDevice : Device :=
  { name := "Actuator", hardware_name := "hw", manufacturer_name := "m"
    order_number := "o", application := some "app"
    communication_object_ids := ["E1"]
    channels := [("CH1", { name := "Channel A", communication_object_ids := ["E2"] })] }

/-- The endpoint table of the sample project. -/
def sampleCos : List (String × CommunicationObject) := [("E1", coE1), ("E2", coE2)]

/-- The bus table of the sample project. -/
def sampleGas : List (String × GroupAddress) := [("1/0/5", gaLight), ("2/0/1", gaSecond)]

/-- The sample project. -/
def sampleProject : KNXProject :=
  { devices := [("1.1.5", sampleDevice)]
    communication_objects := sampleCos
    group_addresses := sampleGas
    info := some "INFO" }

/-- The logical-device view of the sample project. -/
def sampleView : List LogicalDeviceSummary :=
  match build_logical_device_view sampleProject with
  | .ok r => r
  | .error _ => []

/-- A throwaway summary used as an `Option.getD` default. -/
def junkSummary : LogicalDeviceSummary :=
  { individual_address := "", name := "", hardware_name := ""
    manufacturer_name := "", order_number := "", application := none
    group_addresses := [] }

/-- The first summary of the sample view. -/
def sampleSummary : LogicalDeviceSummary := sampleView.headD junkSummary

/-- The first bus entry of the first summary of the sample view. -/
def sampleEntry : LogicalDeviceGroupAddress :=
  sampleSummary.group_addresses.headD junkEntry

/-- An endpoint referencing only the bus `"9/9/9"`, which no bus table
below contains. -/
def stubCo : CommunicationObject :=
  { name := "Stub", number := 1, text := "", function_text := ""
    description := "", channel := none, group_address_links := ["9/9/9"] }

/-- A device owning only `stubCo`. -/
def stubDevice : Device :=
  { name := "StubDev", hardware_name := "", manufacturer_name := ""
    order_number := "", application := none
    communication_object_ids := ["S1"], channels := [] }

/-- The endpoint table of the stub world. -/
def stubCos : List (String × CommunicationObject) := [("S1", stubCo)]

/-- An endpoint referencing the known bus `"1/0/5"` and the unknown bus
`"9/9/9"` from one link list. -/
def mixCo : CommunicationObject :=
  { name := "Mix", number := 1, text := "", function_text := ""
    description := "", channel := none
    group_address_links := ["1/0/5", "9/9/9"] }

/-- A device owning only `mixCo`. -/
def mixDevice : Device :=
  { name := "MixDev", hardware_name := "", manufacturer_name := ""
    order_number := "", application := none
    communication_object_ids := ["M1"], channels := [] }

/-- The endpoint table of the mixed world. -/
def mixCos : List (String × CommunicationObject) := [("M1", mixCo)]

/-- The bus table of the mixed world: only `"1/0/5"` is known. -/
def mixGas : List (String × GroupAddress) := [("1/0/5", gaLight)]

/-- An endpoint linking only the bus address `"gaA"`. -/
def coX1 : CommunicationObject :=
  { name := "X1", number := 1, text := "", function_text := ""
    description := "", channel := none, group_address_links := ["gaA"] }

/-- An endpoint linking only the bus address `"gaB"`. -/
def coX2 : CommunicationObject :=
  { name := "X2", number := 2, text := "", function_text := ""
    description := "", channel := none, group_address_links := ["gaB"] }

/-- A bus table record registered under the key `"gaB"` whose stored
address attribute is `"gaA"`. -/
def gaTie : GroupAddress :=
  { address := "gaA", name := "B", project_uid := none, dpt := none
    data_secure := false, description := "", comment := "", raw_address := 1 }

/-- A device with no endpoints of its own (the enumeration is passed to
the aggregation loop directly). -/
def tieDevice : Device :=
  { name := "TieDev", hardware_name := "", manufacturer_name := ""
    order_number := "", application := none
    communication_object_ids := [], channels := [] }

/-- The endpoint table of the tie world. -/
def tieCos : List (String × CommunicationObject) := [("X1", coX1), ("X2", coX2)]

/-- The bus table of the tie world: the stub entry for `"gaA"` and the
record entry keyed `"gaB"` both get the string sort key `"gaA"`. -/
def tieGas : List (String × GroupAddress) := [("gaB", gaTie)]

/-- An endpoint linking only `"1/0/5"`, owned under the identifier
`"a"`. -/
def coA : CommunicationObject :=
  { name := "A", number := 5, text := "", function_text := ""
    description := "", channel := none, group_address_links := ["1/0/5"] }

/-- An endpoint linking only `"1/0/5"`, owned under the identifier
`"b"`. -/
def coB : CommunicationObject :=
  { name := "B", number := 4, text := "", function_text := ""
    description := "", channel := none, group_address_links := ["1/0/5"] }

/-- The endpoint table of the single-bus world. -/
def wCos : List (String × CommunicationObject) := [("a", coA), ("b", coB)]

/-- The bus table of the single-bus world. -/
def wGas : List (String × GroupAddress) := [("1/0/5", gaLight)]

/-- The sample input location used by the export witnesses. -/
def samplePath : PyPath := { parent := ["tmp"], name := "project.json" }

/-- A project with no devices (its view is empty). -/
def emptyProject : KNXProject :=
  { devices := [], communication_objects := [], group_addresses := []
    info := some "INFO" }

/-- The entry the aggregation loop accumulates for the unknown bus
`"9/9/9"` in the stub world. -/
def stubAggEntry : LogicalDeviceGroupAddress :=
  (dictGet (aggregate_state ["S1"] stubDevice stubCos []).grouped "9/9/9").getD junkEntry

/-- The entry the aggregation loop accumulates under the grouping key
`"gaB"` in the tie world. -/
def tieAggEntry : LogicalDeviceGroupAddress :=
  (dictGet (aggregate_state ["X2"] tieDevice tieCos tieGas).grouped "gaB").getD junkEntry

/-- The entry the sample aggregation accumulates for the bus `"1/0/5"`. -/
def sampleAggLight : LogicalDeviceGroupAddress :=
  (dictGet (aggregate_state (gather_comm_object_ids sampleDevice) sampleDevice
    sampleCos sampleGas).grouped "1/0/5").getD junkEntry

/-- The aggregated bus list of the sample device. -/
def sampleCollect : List LogicalDeviceGroupAddress :=
  match collect_group_addresses (gather_comm_object_ids sampleDevice) sampleDevice
      sampleCos sampleGas with
  | .ok r => r
  | .error _ => []

/-- A concrete accumulated map whose two entries both have numeric bus
sort keys. -/
def c3wGrouped : List (String × LogicalDeviceGroupAddress) :=
  [("1/0/5", build_group_address_entry "1/0/5" (some gaLight)),
   ("2/0/1", build_group_address_entry "2/0/1" (some gaSecond))]

/-! ### Association-list lemmas -/

theorem dictGet_isSome_iff {α : Type} (l : List (String × α)) (k : String) :
    (dictGet l k).isSome = true ↔ k ∈ l.map Prod.fst := by
  induction l with
  | nil => simp [dictGet]
  | cons p rest ih =>
    obtain ⟨k', v⟩ := p
    by_cases h : k' = k
    · subst h
      simp [dictGet]
    · simp only [dictGet, if_neg h, List.map_cons, List.mem_cons, ih]
      constructor
      · intro hm
        exact Or.inr hm
      · rintro (rfl | hm)
        · exact absurd rfl h
        · exact hm

theorem dictGet_eq_none_iff {α : Type} (l : List (String × α)) (k : String) :
    dictGet l k = none ↔ k ∉ l.map Prod.fst := by
  rw [← dictGet_isSome_iff l k]
  cases dictGet l k <;> simp

theorem dictGet_of_mem_nodup {α : Type} {l : List (String × α)}
    (hn : (l.map Prod.fst).Nodup) {k : String} {v : α} (hm : (k, v) ∈ l) :
    dictGet l k = some v := by
  induction l with
  | nil => cases hm
  | cons p rest ih =>
    obtain ⟨k', v'⟩ := p
    rcases List.mem_cons.mp hm with h | h
    · obtain ⟨rfl, rfl⟩ := Prod.mk.injEq .. ▸ h
      simp [dictGet]
    · have hk : k' ≠ k := by
        rintro rfl
        exact (List.nodup_cons.mp hn).1 (List.mem_map.mpr ⟨(k', v), h, rfl⟩)
      simp only [dictGet, if_neg hk]
      exact ih (List.nodup_cons.mp hn).2 h

/-! ### Order-relation lemmas -/

theorem charListLe_total (l1 l2 : List Char) :
    charListLe l1 l2 = true ∨ charListLe l2 l1 = true := by
  induction l1 generalizing l2 with
  | nil => left; rfl
  | cons a as ih =>
    cases l2 with
    | nil => right; rfl
    | cons b bs =>
      rcases Nat.lt_trichotomy a.toNat b.toNat with h | h | h
      · left; simp [charListLe, h]
      · have h' : ¬ a.toNat < b.toNat := by omega
        have h'' : ¬ b.toNat < a.toNat := by omega
        rcases ih bs with hle | hle
        · left; simp [charListLe, h', h'', hle]
        · right; simp [charListLe, h', h'', hle]
      · right; simp [charListLe, h, Nat.lt_asymm h]

theorem charListLe_trans {l1 l2 l3 : List Char}
    (h12 : charListLe l1 l2 = true) (h23 : charListLe l2 l3 = true) :
    charListLe l1 l3 = true := by
  induction l1 generalizing l2 l3 with
  | nil => rfl
  | cons a as ih =>
    cases l2 with
    | nil => simp [charListLe] at h12
    | cons b bs =>
      cases l3 with
      | nil => simp [charListLe] at h23
      | cons c cs =>
        simp only [charListLe] at h12 h23 ⊢
        by_cases hab : a.toNat < b.toNat
        · by_cases hbc : b.toNat < c.toNat
          · simp [Nat.lt_trans hab hbc]
          · by_cases hcb : c.toNat < b.toNat
            · simp [hbc, hcb] at h23
            · have : b.toNat = c.toNat := by omega
              simp [this ▸ hab]
        · by_cases hba : b.toNat < a.toNat
          · simp [hab, hba] at h12
          · have hab' : a.toNat = b.toNat := by omega
            by_cases hbc : b.toNat < c.toNat
            · simp [hab' ▸ hbc]
            · by_cases hcb : c.toNat < b.toNat
              · simp [hbc, hcb] at h23
              · have hbc' : b.toNat = c.toNat := by omega
                have hac : ¬ a.toNat < c.toNat := by omega
                have hca : ¬ c.toNat < a.toNat := by omega
                simp only [if_neg hac, if_neg hca]
                simp only [if_neg hab, if_neg hba] at h12
                simp only [if_neg hbc, if_neg hcb] at h23
                exact ih h12 h23

theorem charListLe_antisymm {l1 l2 : List Char}
    (h12 : charListLe l1 l2 = true) (h21 : charListLe l2 l1 = true) :
    l1 = l2 := by
  induction l1 generalizing l2 with
  | nil =>
    cases l2 with
    | nil => rfl
    | cons b bs => simp [charListLe] at h21
  | cons a as ih =>
    cases l2 with
    | nil => simp [charListLe] at h12
    | cons b bs =>
      simp only [charListLe] at h12 h21
      by_cases hab : a.toNat < b.toNat
      · simp [Nat.lt_asymm hab, hab] at h21
      · by_cases hba : b.toNat < a.toNat
        · simp [hab, hba] at h12
        · have heq : a.toNat = b.toNat := by omega
          have : a = b := Char.ext (UInt32.ext heq)
          subst this
          simp only [if_neg hab, if_neg hba] at h12 h21
          rw [ih h12 h21]

theorem pyStrLe_total (a b : String) : pyStrLe a b = true ∨ pyStrLe b a = true :=
  charListLe_total a.data b.data

theorem pyStrLe_trans {a b c : String} (h1 : pyStrLe a b = true)
    (h2 : pyStrLe b c = true) : pyStrLe a c = true :=
  charListLe_trans h1 h2

theorem pyStrLe_antisymm {a b : String} (h1 : pyStrLe a b = true)
    (h2 : pyStrLe b a = true) : a = b :=
  String.ext (charListLe_antisymm h1 h2)

theorem linkLe_total (a b : CommunicationObjectLink) :
    linkLe a b = true ∨ linkLe b a = true := by
  unfold linkLe
  rcases Int.lt_trichotomy a.number b.number with h | h | h
  · left; simp [h]
  · simp only [h, lt_irrefl, if_neg (lt_irrefl b.number)]
    simp only [if_false]
    exact pyStrLe_total a.id b.id
  · right; simp [h]

theorem linkLe_trans {a b c : CommunicationObjectLink}
    (h1 : linkLe a b = true) (h2 : linkLe b c = true) : linkLe a c = true := by
  unfold linkLe at h1 h2 ⊢
  by_cases hab : a.number < b.number
  · by_cases hbc : b.number < c.number
    · simp [lt_trans hab hbc]
    · by_cases hcb : c.number < b.number
      · simp [hbc, hcb] at h2
      · have : b.number = c.number := by omega
        simp [this ▸ hab]
  · by_cases hba : b.number < a.number
    · simp [hab, hba] at h1
    · have hab' : a.number = b.number := by omega
      by_cases hbc : b.number < c.number
      · simp [hab' ▸ hbc]
      · by_cases hcb : c.number < b.number
        · simp [hbc, hcb] at h2
        · have hbc' : b.number = c.number := by omega
          have hac : ¬ a.number < c.number := by rw [hab', hbc']; exact lt_irrefl _
          have hca : ¬ c.number < a.number := by rw [hab', hbc']; exact lt_irrefl _
          simp only [if_neg hac, if_neg hca]
          simp only [if_neg hab, if_neg hba] at h1
          simp only [if_neg hbc, if_neg hcb] at h2
          exact pyStrLe_trans h1 h2

theorem linkLe_antisymm_key {a b : CommunicationObjectLink}
    (h1 : linkLe a b = true) (h2 : linkLe b a = true) :
    a.number = b.number ∧ a.id = b.id := by
  unfold linkLe at h1 h2
  by_cases hab : a.number < b.number
  · simp [lt_asymm hab, hab] at h2
  · by_cases hba : b.number < a.number
    · simp [hab, hba] at h1
    · have hn : a.number = b.number := by omega
      simp only [if_neg hab, if_neg hba] at h1 h2
      exact ⟨hn, pyStrLe_antisymm h1 h2⟩

theorem busKeyLe_total (a b : BusSortKey) : busKeyLe a b = true ∨ busKeyLe b a = true := by
  cases a with
  | num x =>
    cases b with
    | num y =>
      simp only [busKeyLe, decide_eq_true_eq]
      exact Int.le_total x y
    | str y => left; rfl
  | str x =>
    cases b with
    | num y => right; rfl
    | str y => exact pyStrLe_total x y

theorem busKeyLe_trans {a b c : BusSortKey} (h1 : busKeyLe a b = true)
    (h2 : busKeyLe b c = true) : busKeyLe a c = true := by
  cases a <;> cases b <;> cases c <;>
    simp only [busKeyLe, decide_eq_true_eq] at h1 h2 ⊢ <;>
    first
    | rfl
    | trivial
    | exact le_trans h1 h2
    | exact pyStrLe_trans h1 h2

theorem busKeyLe_antisymm {a b : BusSortKey} (h1 : busKeyLe a b = true)
    (h2 : busKeyLe b a = true) : a = b := by
  cases a <;> cases b <;>
    simp only [busKeyLe, decide_eq_true_eq] at h1 h2 ⊢
  · rw [le_antisymm h1 h2]
  · cases h2
  · cases h1
  · rw [pyStrLe_antisymm h1 h2]

/-! ### Stable-sort lemmas -/

theorem insertLe_perm {α : Type} (le : α → α → Bool) (a : α) (l : List α) :
    (insertLe le a l).Perm (a :: l) := by
  induction l with
  | nil => exact List.Perm.refl _
  | cons b t ih =>
    unfold insertLe
    by_cases h : le a b = true
    · rw [if_pos h]
    · rw [if_neg h]
      exact (ih.cons b).trans (List.Perm.swap a b t)

theorem stableSort_perm {α : Type} (le : α → α → Bool) (l : List α) :
    (stableSort le l).Perm l := by
  induction l with
  | nil => exact List.Perm.refl _
  | cons a t ih =>
    exact (insertLe_perm le a (stableSort le t)).trans (ih.cons a)

theorem pairwise_insertLe {α : Type} (le : α → α → Bool)
    (htr : ∀ a b c, le a b = true → le b c = true → le a c = true)
    (hto : ∀ a b, le a b = true ∨ le b a = true)
    (a : α) {l : List α} (h : l.Pairwise (fun x y => le x y = true)) :
    (insertLe le a l).Pairwise (fun x y => le x y = true) := by
  induction l with
  | nil => simp [insertLe]
  | cons b t ih =>
    obtain ⟨hb, ht⟩ := List.pairwise_cons.mp h
    unfold insertLe
    by_cases hab : le a b = true
    · rw [if_pos hab]
      refine List.pairwise_cons.mpr ⟨?_, h⟩
      intro y hy
      rcases List.mem_cons.mp hy with rfl | hy
      · exact hab
      · exact htr a b y hab (hb y hy)
    · rw [if_neg hab]
      refine List.pairwise_cons.mpr ⟨?_, ih ht⟩
      intro y hy
      have hy' : y ∈ a :: t := (insertLe_perm le a t).mem_iff.mp hy
      rcases List.mem_cons.mp hy' with rfl | hy'
      · rcases hto b y with hba | hab'
        · exact hba
        · exact absurd hab' hab
      · exact hb y hy'

theorem pairwise_stableSort {α : Type} (le : α → α → Bool)
    (htr : ∀ a b c, le a b = true → le b c = true → le a c = true)
    (hto : ∀ a b, le a b = true ∨ le b a = true) (l : List α) :
    (stableSort le l).Pairwise (fun x y => le x y = true) := by
  induction l with
  | nil => exact List.Pairwise.nil
  | cons a t ih => exact pairwise_insertLe le htr hto a ih

theorem sorted_perm_eq {α : Type} (le : α → α → Bool) :
    ∀ (l1 l2 : List α), l1.Perm l2 →
    l1.Pairwise (fun x y => le x y = true) →
    l2.Pairwise (fun x y => le x y = true) →
    (∀ a ∈ l1, ∀ b ∈ l1, le a b = true → le b a = true → a = b) →
    l1 = l2 := by
  intro l1
  induction l1 with
  | nil =>
    intro l2 hp _ _ _
    exact (hp.symm.eq_nil).symm
  | cons a t1 ih =>
    intro l2 hp h1 h2 hanti
    cases l2 with
    | nil => exact absurd hp.eq_nil (by simp)
    | cons b t2 =>
      have hab : a = b := by
        by_contra hne
        have ha2 : a ∈ t2 := by
          rcases List.mem_cons.mp (hp.mem_iff.mp (List.mem_cons_self a t1)) with h | h
          · exact absurd h hne
          · exact h
        have hb1 : b ∈ t1 := by
          rcases List.mem_cons.mp (hp.mem_iff.mpr (List.mem_cons_self b t2)) with h | h
          · exact absurd h.symm hne
          · exact h
        have hle1 : le a b = true := (List.pairwise_cons.mp h1).1 b hb1
        have hle2 : le b a = true := (List.pairwise_cons.mp h2).1 a ha2
        exact hne (hanti a (List.mem_cons_self a t1) b (List.mem_cons_of_mem a hb1) hle1 hle2)
      subst hab
      have ht : t1.Perm t2 := hp.cons_inv
      have htail : t1 = t2 :=
        ih t2 ht (List.pairwise_cons.mp h1).2 (List.pairwise_cons.mp h2).2
          (fun x hx y hy => hanti x (List.mem_cons_of_mem a hx) y (List.mem_cons_of_mem a hy))
      rw [htail]

/-! ### Deduplication and endpoint-collection lemmas -/

theorem mem_firstDedupAux (l : List String) :
    ∀ (seen : List String) (x : String),
    x ∈ firstDedupAux seen l ↔ x ∈ l ∧ x ∉ seen := by
  induction l with
  | nil => intro seen x; simp [firstDedupAux]
  | cons a t ih =>
    intro seen x
    unfold firstDedupAux
    by_cases ha : a ∈ seen
    · rw [if_pos ha, ih seen x]
      constructor
      · rintro ⟨hx, hs⟩
        exact ⟨List.mem_cons_of_mem a hx, hs⟩
      · rintro ⟨hx, hs⟩
        rcases List.mem_cons.mp hx with rfl | hx
        · exact absurd ha hs
        · exact ⟨hx, hs⟩
    · rw [if_neg ha]
      by_cases hxa : x = a
      · subst hxa
        simp [ha]
      · constructor
        · intro hx
          rcases List.mem_cons.mp hx with h | h
          · exact absurd h hxa
          · obtain ⟨h1, h2⟩ := (ih (a :: seen) x).mp h
            exact ⟨List.mem_cons_of_mem a h1,
              fun hs => h2 (List.mem_cons_of_mem a hs)⟩
        · rintro ⟨hx, hs⟩
          rcases List.mem_cons.mp hx with rfl | hx
          · exact absurd rfl hxa
          · exact List.mem_cons_of_mem a ((ih (a :: seen) x).mpr
              ⟨hx, fun hm => by
                rcases List.mem_cons.mp hm with h | h
                · exact hxa h
                · exact hs h⟩)

theorem nodup_firstDedupAux (l : List String) :
    ∀ seen : List String, (firstDedupAux seen l).Nodup := by
  induction l with
  | nil => intro seen; exact List.nodup_nil
  | cons a t ih =>
    intro seen
    unfold firstDedupAux
    by_cases ha : a ∈ seen
    · rw [if_pos ha]; exact ih seen
    · rw [if_neg ha]
      refine List.nodup_cons.mpr ⟨?_, ih (a :: seen)⟩
      intro hmem
      exact ((mem_firstDedupAux t (a :: seen) a).mp hmem).2 (List.mem_cons_self a seen)

theorem mem_firstDedup (l : List String) (x : String) :
    x ∈ firstDedup l ↔ x ∈ l := by
  rw [firstDedup, mem_firstDedupAux]
  simp

theorem nodup_firstDedup (l : List String) : (firstDedup l).Nodup :=
  nodup_firstDedupAux l []

theorem nodup_gather (device : Device) : (gather_comm_object_ids device).Nodup :=
  nodup_firstDedup _

theorem mem_gather (device : Device) (x : String) :
    x ∈ gather_comm_object_ids device ↔
      x ∈ device.communication_object_ids ∨
        ∃ p ∈ device.channels, x ∈ p.2.communication_object_ids := by
  rw [gather_comm_object_ids, mem_firstDedup, List.mem_append]
  constructor
  · rintro (h | h)
    · exact Or.inl h
    · obtain ⟨l, hl, hx⟩ := List.mem_flatten.mp h
      obtain ⟨p, hp, rfl⟩ := List.mem_map.mp hl
      exact Or.inr ⟨p, hp, hx⟩
  · rintro (h | ⟨p, hp, hx⟩)
    · exact Or.inl h
    · exact Or.inr (List.mem_flatten.mpr
        ⟨p.2.communication_object_ids, List.mem_map.mpr ⟨p, hp, rfl⟩, hx⟩)

/-! ### Aggregation-loop lemmas -/

theorem dictGet_addLink (grouped : List (String × LogicalDeviceGroupAddress))
    (ga : String) (gaData : Option GroupAddress) (link : CommunicationObjectLink)
    (ga' : String) :
    dictGet (addLink grouped ga gaData link) ga' =
      if ga' = ga then
        some (match dictGet grouped ga' with
          | some e =>
            { e with communication_objects := e.communication_objects ++ [link] }
          | none =>
            { build_group_address_entry ga gaData with communication_objects := [link] })
      else dictGet grouped ga' := by
  induction grouped with
  | nil =>
    by_cases h : ga' = ga
    · subst h
      simp [addLink, dictGet]
    · have h' : ga ≠ ga' := fun hh => h hh.symm
      simp [addLink, dictGet, h, h']
  | cons p rest ih =>
    obtain ⟨k, e⟩ := p
    unfold addLink
    by_cases hk : k = ga
    · subst hk
      rw [if_pos rfl]
      by_cases h : ga' = k
      · subst h
        simp [dictGet]
      · have h' : k ≠ ga' := fun hh => h hh.symm
        simp [dictGet, h, h']
    · rw [if_neg hk]
      by_cases h : k = ga'
      · subst h
        have h' : k ≠ ga := hk
        have h'' : ¬ k = ga := hk
        simp [dictGet, h'']
      · simp only [dictGet, if_neg h]
        exact ih

theorem addLink_map_fst (grouped : List (String × LogicalDeviceGroupAddress))
    (ga : String) (gaData : Option GroupAddress) (link : CommunicationObjectLink) :
    (addLink grouped ga gaData link).map Prod.fst =
      if (dictGet grouped ga).isSome then grouped.map Prod.fst
      else grouped.map Prod.fst ++ [ga] := by
  induction grouped with
  | nil => simp [addLink, dictGet]
  | cons p rest ih =>
    obtain ⟨k, e⟩ := p
    unfold addLink
    by_cases hk : k = ga
    · subst hk
      simp [dictGet]
    · rw [if_neg hk]
      simp only [dictGet, if_neg hk, List.map_cons]
      rw [ih]
      by_cases h : (dictGet rest ga).isSome
      · simp [h]
      · simp only [Bool.not_eq_true] at h
        simp [h]

theorem processLinks_processed (group_addresses : List (String × GroupAddress))
    (comm_object_id : String) (link : CommunicationObjectLink) (links : List String) :
    ∀ (st : AggState) (p : String × String),
    p ∈ (processLinks group_addresses comm_object_id link st links).processed ↔
      p ∈ st.processed ∨ (p.2 = comm_object_id ∧ p.1 ∈ links) := by
  induction links with
  | nil => intro st p; simp [processLinks]
  | cons ga rest ih =>
    intro st p
    obtain ⟨p1, p2⟩ := p
    unfold processLinks
    by_cases hmem : (ga, comm_object_id) ∈ st.processed
    · rw [if_pos hmem, ih]
      simp only [List.mem_cons]
      constructor
      · rintro (h | ⟨h1, h2⟩)
        · exact Or.inl h
        · exact Or.inr ⟨h1, Or.inr h2⟩
      · rintro (h | ⟨h1, h2⟩)
        · exact Or.inl h
        · rcases h2 with h2 | h2
          · subst h1
            subst h2
            exact Or.inl hmem
          · exact Or.inr ⟨h1, h2⟩
    · rw [if_neg hmem, ih]
      simp only [List.mem_cons, Prod.mk.injEq]
      constructor
      · rintro ((⟨ha, hb⟩ | h) | ⟨h1, h2⟩)
        · exact Or.inr ⟨hb, Or.inl ha⟩
        · exact Or.inl h
        · exact Or.inr ⟨h1, Or.inr h2⟩
      · rintro (h | ⟨h1, h2⟩)
        · exact Or.inl (Or.inr h)
        · rcases h2 with h2 | h2
          · exact Or.inl (Or.inl ⟨h2, h1⟩)
          · exact Or.inr ⟨h1, h2⟩

theorem processLinks_dictGet (group_addresses : List (String × GroupAddress))
    (comm_object_id : String) (link : CommunicationObjectLink) (links : List String) :
    ∀ (st : AggState) (ga' : String),
    dictGet (processLinks group_addresses comm_object_id link st links).grouped ga' =
      if ga' ∈ links ∧ (ga', comm_object_id) ∉ st.processed then
        some (match dictGet st.grouped ga' with
          | some e =>
            { e with communication_objects := e.communication_objects ++ [link] }
          | none =>
            { build_group_address_entry ga' (dictGet group_addresses ga') with
              communication_objects := [link] })
      else dictGet st.grouped ga' := by
  induction links with
  | nil => intro st ga'; simp [processLinks]
  | cons ga rest ih =>
    intro st ga'
    unfold processLinks
    by_cases hmem : (ga, comm_object_id) ∈ st.processed
    · rw [if_pos hmem, ih]
      by_cases hcond : ga' ∈ rest ∧ (ga', comm_object_id) ∉ st.processed
      · rw [if_pos hcond, if_pos ⟨List.mem_cons_of_mem ga hcond.1, hcond.2⟩]
      · rw [if_neg hcond]
        by_cases hcond2 : ga' ∈ ga :: rest ∧ (ga', comm_object_id) ∉ st.processed
        · exfalso
          rcases List.mem_cons.mp hcond2.1 with rfl | h
          · exact hcond2.2 hmem
          · exact hcond ⟨h, hcond2.2⟩
        · rw [if_neg hcond2]
    · rw [if_neg hmem, ih]
      by_cases hga : ga' = ga
      · subst hga
        have hin : ¬ (ga' ∈ rest ∧
            (ga', comm_object_id) ∉ ((ga', comm_object_id) :: st.processed)) := by
          rintro ⟨_, h⟩
          exact h (List.mem_cons_self _ _)
        rw [if_neg hin]
        have hout : ga' ∈ ga' :: rest ∧ (ga', comm_object_id) ∉ st.processed :=
          ⟨List.mem_cons_self _ _, hmem⟩
        rw [if_pos hout, dictGet_addLink]
        rw [if_pos rfl]
      · have hne : (ga', comm_object_id) ≠ (ga, comm_object_id) := by
          intro h
          exact hga (congrArg Prod.fst h)
        have hmem' : (ga', comm_object_id) ∈
            ((ga, comm_object_id) :: st.processed) ↔
            (ga', comm_object_id) ∈ st.processed := by
          simp [hne]
        rw [dictGet_addLink, if_neg hga]
        by_cases hcond : ga' ∈ rest ∧ (ga', comm_object_id) ∉ st.processed
        · have : ga' ∈ rest ∧ (ga', comm_object_id) ∉
              ((ga, comm_object_id) :: st.processed) := by
            exact ⟨hcond.1, fun h => hcond.2 (hmem'.mp h)⟩
          rw [if_pos this, if_pos ⟨List.mem_cons_of_mem ga hcond.1, hcond.2⟩]
        · have h2 : ¬ (ga' ∈ rest ∧ (ga', comm_object_id) ∉
              ((ga, comm_object_id) :: st.processed)) := by
            rintro ⟨h3, h4⟩
            exact hcond ⟨h3, fun h5 => h4 (hmem'.mpr h5)⟩
          rw [if_neg h2]
          by_cases hcond2 : ga' ∈ ga :: rest ∧ (ga', comm_object_id) ∉ st.processed
          · exfalso
            rcases List.mem_cons.mp hcond2.1 with h | h
            · exact hga h
            · exact hcond ⟨h, hcond2.2⟩
          · rw [if_neg hcond2]

theorem processLinks_nodup_keys (group_addresses : List (String × GroupAddress))
    (comm_object_id : String) (link : CommunicationObjectLink) (links : List String) :
    ∀ st : AggState, (st.grouped.map Prod.fst).Nodup →
    ((processLinks group_addresses comm_object_id link st links).grouped.map Prod.fst).Nodup := by
  induction links with
  | nil => intro st h; exact h
  | cons ga rest ih =>
    intro st h
    unfold processLinks
    by_cases hmem : (ga, comm_object_id) ∈ st.processed
    · rw [if_pos hmem]
      exact ih st h
    · rw [if_neg hmem]
      apply ih
      simp only [addLink_map_fst]
      by_cases hk : (dictGet st.grouped ga).isSome
      · rw [if_pos hk]; exact h
      · rw [if_neg hk]
        rw [List.nodup_append]
        refine ⟨h, List.nodup_singleton ga, ?_⟩
        intro x hx hx'
        rcases List.mem_singleton.mp hx' with rfl
        simp only [Bool.not_eq_true] at hk
        exact (dictGet_eq_none_iff st.grouped x).mp
          (Option.not_isSome_iff_eq_none.mp (by rw [hk]; simp)) hx

theorem contributors_append (communication_objects : List (String × CommunicationObject))
    (o1 o2 : List String) (ga : String) :
    contributors communication_objects (o1 ++ o2) ga =
      contributors communication_objects o1 ga ++ contributors communication_objects o2 ga :=
  List.filter_append o1 o2

theorem contributors_singleton (communication_objects : List (String × CommunicationObject))
    (id : String) (ga : String) :
    contributors communication_objects [id] ga =
      if resolvesB communication_objects id = true ∧ ga ∈ linksOf communication_objects id
      then [id] else [] := by
  by_cases h : resolvesB communication_objects id = true ∧ ga ∈ linksOf communication_objects id
  · rw [if_pos h]
    simp [contributors, List.filter, h.1, h.2]
  · rw [if_neg h]
    rw [Classical.not_and_iff_or_not_not] at h
    rcases h with h | h
    · simp [contributors, List.filter, Bool.not_eq_true _ ▸ h]
    · simp [contributors, List.filter, h]

theorem aggInv_step (device : Device)
    (communication_objects : List (String × CommunicationObject))
    (group_addresses : List (String × GroupAddress))
    (done : List String) (st : AggState) (id : String)
    (hid : id ∉ done)
    (h : AggInv device communication_objects group_addresses done st) :
    AggInv device communication_objects group_addresses (done ++ [id])
      (processCommObject device communication_objects group_addresses st id) := by
  obtain ⟨hproc, hgroup, hnodup⟩ := h
  unfold processCommObject
  cases hco : dictGet communication_objects id with
  | none =>
    refine ⟨?_, ?_, hnodup⟩
    · intro p
      rw [hproc p]
      constructor
      · rintro ⟨hd, hr, hl⟩
        exact ⟨List.mem_append_left _ hd, hr, hl⟩
      · rintro ⟨hd, hr, hl⟩
        rcases List.mem_append.mp hd with hd | hd
        · exact ⟨hd, hr, hl⟩
        · exfalso
          have hpid : p.2 = id := by simpa using hd
          rw [hpid] at hr
          simp [resolvesB, hco] at hr
    · intro ga
      rw [hgroup ga]
      have hc : contributors communication_objects (done ++ [id]) ga =
          contributors communication_objects done ga := by
        rw [contributors_append, contributors_singleton]
        rw [if_neg (fun hh => by simp [resolvesB, hco] at hh)]
        exact List.append_nil _
      unfold entry_formula
      rw [hc]
  | some co =>
    have hres : resolvesB communication_objects id = true := by simp [resolvesB, hco]
    have hlinks : linksOf communication_objects id = co.group_address_links := by
      simp [linksOf, hco]
    have hnoid : ∀ ga', (ga', id) ∉ st.processed := by
      intro ga' hmem
      obtain ⟨hd, _, _⟩ := (hproc (ga', id)).mp hmem
      exact hid hd
    refine ⟨?_, ?_, processLinks_nodup_keys _ _ _ _ st hnodup⟩
    · intro p
      rw [processLinks_processed, hproc p]
      constructor
      · rintro (⟨hd, hr, hl⟩ | ⟨hpid, hpl⟩)
        · exact ⟨List.mem_append_left _ hd, hr, hl⟩
        · refine ⟨List.mem_append_right _ (by rw [hpid]; exact List.mem_singleton_self id),
            ?_, ?_⟩
          · rw [hpid]; exact hres
          · rw [hpid, hlinks]; exact hpl
      · rintro ⟨hd, hr, hl⟩
        rcases List.mem_append.mp hd with hd | hd
        · exact Or.inl ⟨hd, hr, hl⟩
        · have hpid : p.2 = id := by simpa using hd
          rw [hpid, hlinks] at hl
          exact Or.inr ⟨hpid, hl⟩
    · intro ga
      rw [processLinks_dictGet]
      by_cases hmem : ga ∈ co.group_address_links
      · rw [if_pos ⟨hmem, hnoid ga⟩, hgroup ga]
        have hcontr : contributors communication_objects (done ++ [id]) ga =
            contributors communication_objects done ga ++ [id] := by
          rw [contributors_append, contributors_singleton]
          rw [if_pos ⟨hres, by rw [hlinks]; exact hmem⟩]
        have hlinkfor : linkFor device communication_objects id =
            some (summarize_comm_object id co (channel_name device co.channel)) := by
          simp [linkFor, hco]
        unfold entry_formula
        rw [hcontr]
        by_cases hc : contributors communication_objects done ga = []
        · rw [hc]
          simp [List.filterMap, hlinkfor]
        · rw [if_neg hc]
          have hne : ¬ (contributors communication_objects done ga ++ [id] = []) := by
            simp
          rw [if_neg hne, List.filterMap_append]
          simp [List.filterMap, hlinkfor]
      · rw [if_neg (fun hc => hmem hc.1), hgroup ga]
        have hc : contributors communication_objects (done ++ [id]) ga =
            contributors communication_objects done ga := by
          rw [contributors_append, contributors_singleton]
          rw [if_neg (fun hh => by rw [hlinks] at hh; exact hmem hh.2)]
          exact List.append_nil _
        unfold entry_formula
        rw [hc]

theorem aggInv_foldl (device : Device)
    (communication_objects : List (String × CommunicationObject))
    (group_addresses : List (String × GroupAddress)) :
    ∀ (order done : List String) (st : AggState),
    (done ++ order).Nodup →
    AggInv device communication_objects group_addresses done st →
    AggInv device communication_objects group_addresses (done ++ order)
      (order.foldl (processCommObject device communication_objects group_addresses) st) := by
  intro order
  induction order with
  | nil =>
    intro done st _ hinv
    simpa using hinv
  | cons id rest ih =>
    intro done st h hinv
    have hid : id ∉ done := by
      intro hmem
      rw [List.nodup_append] at h
      exact h.2.2 hmem (List.mem_cons_self id rest)
    have hstep := aggInv_step device communication_objects group_addresses done st id hid hinv
    have h' : ((done ++ [id]) ++ rest).Nodup := by
      simpa [List.append_assoc] using h
    have hres := ih (done ++ [id]) _ h' hstep
    simpa [List.append_assoc] using hres

theorem aggregate_inv (device : Device)
    (communication_objects : List (String × CommunicationObject))
    (group_addresses : List (String × GroupAddress))
    (order : List String) (h : order.Nodup) :
    AggInv device communication_objects group_addresses order
      (aggregate_state order device communication_objects group_addresses) := by
  have base : AggInv device communication_objects group_addresses []
      { grouped := [], processed := [] } := by
    refine ⟨?_, ?_, List.nodup_nil⟩
    · intro p; simp
    · intro ga; simp [dictGet, entry_formula, contributors]
  have hres := aggInv_foldl device communication_objects group_addresses order [] _
    (by simpa using h) base
  simpa using hres

/-! ### Consequences of the aggregation invariant -/

theorem linkFor_id {device : Device}
    {communication_objects : List (String × CommunicationObject)} {id : String}
    {l : CommunicationObjectLink}
    (h : linkFor device communication_objects id = some l) : l.id = id := by
  unfold linkFor at h
  cases hco : dictGet communication_objects id with
  | none => rw [hco] at h; cases h
  | some co =>
    rw [hco] at h
    injection h with h2
    rw [← h2]
    rfl

theorem linkFor_isSome {device : Device}
    {communication_objects : List (String × CommunicationObject)} {id : String}
    (h : resolvesB communication_objects id = true) :
    (linkFor device communication_objects id).isSome = true := by
  unfold resolvesB at h
  unfold linkFor
  cases hco : dictGet communication_objects id with
  | none => rw [hco] at h; cases h
  | some co => simp

theorem mem_contributors {communication_objects : List (String × CommunicationObject)}
    {order : List String} {ga : String} {id : String}
    (h : id ∈ contributors communication_objects order ga) :
    id ∈ order ∧ resolvesB communication_objects id = true ∧
      ga ∈ linksOf communication_objects id := by
  obtain ⟨h1, h2⟩ := List.mem_filter.mp h
  rw [Bool.and_eq_true, decide_eq_true_eq] at h2
  exact ⟨h1, h2.1, h2.2⟩

theorem contributors_nodup {communication_objects : List (String × CommunicationObject)}
    {order : List String} (h : order.Nodup) (ga : String) :
    (contributors communication_objects order ga).Nodup :=
  h.filter _

theorem map_id_filterMap_linkFor (device : Device)
    (communication_objects : List (String × CommunicationObject)) :
    ∀ c : List String, (∀ id ∈ c, resolvesB communication_objects id = true) →
    (c.filterMap (linkFor device communication_objects)).map
      (fun l => l.id) = c := by
  intro c
  induction c with
  | nil => intro _; rfl
  | cons id rest ih =>
    intro hres
    have h1 : (linkFor device communication_objects id).isSome = true :=
      linkFor_isSome (hres id (List.mem_cons_self id rest))
    cases hl : linkFor device communication_objects id with
    | none => rw [hl] at h1; cases h1
    | some l =>
      rw [List.filterMap_cons, hl, List.map_cons, linkFor_id hl]
      rw [ih (fun x hx => hres x (List.mem_cons_of_mem id hx))]

theorem mem_filterMap_linkFor {device : Device}
    {communication_objects : List (String × CommunicationObject)}
    {c : List String} {l : CommunicationObjectLink}
    (h : l ∈ c.filterMap (linkFor device communication_objects)) :
    linkFor device communication_objects l.id = some l := by
  obtain ⟨id, _, hl⟩ := List.mem_filterMap.mp h
  rw [linkFor_id hl]
  exact hl

theorem entry_formula_address (device : Device)
    (communication_objects : List (String × CommunicationObject))
    (group_addresses : List (String × GroupAddress))
    (order : List String) (ga : String) {e : LogicalDeviceGroupAddress}
    (h : entry_formula device communication_objects group_addresses order ga = some e) :
    e.address = (build_group_address_entry ga (dictGet group_addresses ga)).address ∧
    e.name = (build_group_address_entry ga (dictGet group_addresses ga)).name ∧
    e.project_uid = (build_group_address_entry ga (dictGet group_addresses ga)).project_uid ∧
    e.dpt = (build_group_address_entry ga (dictGet group_addresses ga)).dpt ∧
    e.data_secure = (build_group_address_entry ga (dictGet group_addresses ga)).data_secure ∧
    e.description = (build_group_address_entry ga (dictGet group_addresses ga)).description ∧
    e.comment = (build_group_address_entry ga (dictGet group_addresses ga)).comment ∧
    e.communication_objects =
      (contributors communication_objects order ga).filterMap
        (linkFor device communication_objects) := by
  unfold entry_formula at h
  by_cases hc : contributors communication_objects order ga = []
  · rw [if_pos hc] at h; cases h
  · rw [if_neg hc] at h
    injection h with h2
    rw [← h2]
    exact ⟨rfl, rfl, rfl, rfl, rfl, rfl, rfl, rfl⟩

theorem entry_formula_isSome (device : Device)
    (communication_objects : List (String × CommunicationObject))
    (group_addresses : List (String × GroupAddress))
    (order : List String) (ga : String) :
    (entry_formula device communication_objects group_addresses order ga).isSome = true ↔
      contributors communication_objects order ga ≠ [] := by
  unfold entry_formula
  by_cases hc : contributors communication_objects order ga = []
  · rw [if_pos hc]
    simp [hc]
  · rw [if_neg hc]
    simp [hc]

theorem agg_entry_ids_nodup (device : Device)
    (communication_objects : List (String × CommunicationObject))
    (group_addresses : List (String × GroupAddress))
    {order : List String} (horder : order.Nodup) {ga : String}
    {e : LogicalDeviceGroupAddress}
    (h : dictGet (aggregate_state order device communication_objects
      group_addresses).grouped ga = some e) :
    (e.communication_objects.map (fun l => l.id)).Nodup := by
  obtain ⟨_, hgroup, _⟩ :=
    aggregate_inv device communication_objects group_addresses order horder
  rw [hgroup ga] at h
  obtain ⟨_, _, _, _, _, _, _, hco⟩ :=
    entry_formula_address device communication_objects group_addresses order ga h
  rw [hco]
  rw [map_id_filterMap_linkFor device communication_objects _
    (fun id hid => (mem_contributors hid).2.1)]
  exact contributors_nodup horder ga

theorem collect_ok_entries (order : List String) (device : Device)
    (communication_objects : List (String × CommunicationObject))
    (group_addresses : List (String × GroupAddress))
    (out : List LogicalDeviceGroupAddress)
    (h : collect_group_addresses order device communication_objects group_addresses =
      .ok out) :
    ∀ e ∈ out, ∃ e₀ ∈ (aggregate_state order device communication_objects
      group_addresses).grouped.map Prod.snd, e = sortEntryLinks e₀ := by
  intro e he
  unfold collect_group_addresses at h
  cases hs : sort_group_addresses (aggregate_state order device communication_objects
      group_addresses).grouped group_addresses with
  | error err => rw [hs] at h; cases h
  | ok s =>
    rw [hs] at h
    injection h with h2
    subst h2
    obtain ⟨e₀, he₀, rfl⟩ := List.mem_map.mp he
    unfold sort_group_addresses at hs
    split at hs
    · cases hs
    · injection hs with h3
      rw [← h3] at he₀
      exact ⟨e₀, (stableSort_perm _ _).mem_iff.mp he₀, rfl⟩

theorem mem_map_snd_dictGet {α : Type} {l : List (String × α)}
    (hn : (l.map Prod.fst).Nodup) {v : α} (hv : v ∈ l.map Prod.snd) :
    ∃ k, dictGet l k = some v := by
  obtain ⟨p, hp, rfl⟩ := List.mem_map.mp hv
  exact ⟨p.1, dictGet_of_mem_nodup hn (by rw [Prod.mk.eta]; exact hp)⟩

/-! ### The claims -/

/-- C5: the Endpoint Collector returns exactly the set union of the
device's own endpoint-identifier set with the endpoint-identifier sets
of all its channels (a duplicate-free set); it has no failure mode, and
a device with an empty endpoint set and an empty channel map yields the
empty set. -/
theorem c5_endpoint_collector (device : Device) (x : String) :
    (x ∈ gather_comm_object_ids device ↔
      (x ∈ device.communication_object_ids ∨
        ∃ p ∈ device.channels, x ∈ p.2.communication_object_ids))
    ∧ (gather_comm_object_ids device).Nodup
    ∧ (device.communication_object_ids = [] → device.channels = [] →
        gather_comm_object_ids device = []) := by
  refine ⟨mem_gather device x, nodup_gather device, ?_⟩
  intro h1 h2
  unfold gather_comm_object_ids
  rw [h1, h2]
  rfl

/-- Witness for C5 at concrete devices: the channel-scoped endpoint
`"E2"` is collected for the sample device, and the endpoint-less
`tieDevice` yields the empty set. -/
theorem c5_endpoint_collector_witness :
    tieDevice.communication_object_ids = [] ∧ tieDevice.channels = [] ∧
    gather_comm_object_ids tieDevice = [] ∧
    ("E2" ∈ gather_comm_object_ids sampleDevice ↔
      ("E2" ∈ sampleDevice.communication_object_ids ∨
        ∃ p ∈ sampleDevice.channels, "E2" ∈ p.2.communication_object_ids)) :=
  ⟨rfl, rfl, (c5_endpoint_collector tieDevice "x").2.2 rfl rfl,
    (c5_endpoint_collector sampleDevice "E2").1⟩

/-- C4: a bus address referenced by some endpoint of a device but absent
from the bus table yields a stub entry carrying the referenced address
string, empty name, empty description, empty comment, null dpt, null
project uid, and `data_secure = false`; this case is never an error (the
aggregation is total). -/
theorem c4_stub_entry (device : Device)
    (communication_objects : List (String × CommunicationObject))
    (group_addresses : List (String × GroupAddress))
    (order : List String) (ga : String) (e : LogicalDeviceGroupAddress)
    (horder : order.Nodup)
    (habsent : dictGet group_addresses ga = none)
    (h : dictGet (aggregate_state order device communication_objects
      group_addresses).grouped ga = some e) :
    e.address = ga ∧ e.name = "" ∧ e.description = "" ∧ e.comment = "" ∧
      e.dpt = none ∧ e.project_uid = none ∧ e.data_secure = false := by
  obtain ⟨_, hgroup, _⟩ :=
    aggregate_inv device communication_objects group_addresses order horder
  rw [hgroup ga] at h
  obtain ⟨ha, hn, hp, hd, hs, hde, hc, _⟩ :=
    entry_formula_address device communication_objects group_addresses order ga h
  rw [habsent] at ha hn hp hd hs hde hc
  simp only [build_group_address_entry] at ha hn hp hd hs hde hc
  exact ⟨ha, hn, hde, hc, hd, hp, hs⟩

/-- Witness for C4: in the stub world the bus `"9/9/9"` is referenced
but the bus table is empty; the accumulated entry is the stub. -/
theorem c4_stub_entry_witness :
    (["S1"] : List String).Nodup ∧
    dictGet ([] : List (String × GroupAddress)) "9/9/9" = none ∧
    dictGet (aggregate_state ["S1"] stubDevice stubCos []).grouped "9/9/9" =
      some stubAggEntry ∧
    (stubAggEntry.address = "9/9/9" ∧ stubAggEntry.name = "" ∧
      stubAggEntry.description = "" ∧ stubAggEntry.comment = "" ∧
      stubAggEntry.dpt = none ∧ stubAggEntry.project_uid = none ∧
      stubAggEntry.data_secure = false) :=
  ⟨by decide, rfl, by decide,
    c4_stub_entry stubDevice stubCos [] ["S1"] "9/9/9" stubAggEntry
      (by decide) rfl (by decide)⟩

/-- C10: when the referenced bus address is a key of the bus table, the
entry's `address` field is the table record's own stored address
attribute (which need not equal the grouping key); for an absent bus it
is the referencing link-list string itself. -/
theorem c10_address_field (ga : String) (r : GroupAddress) (device : Device)
    (communication_objects : List (String × CommunicationObject))
    (group_addresses : List (String × GroupAddress))
    (order : List String) (e : LogicalDeviceGroupAddress) :
    ((build_group_address_entry ga (some r)).address = r.address)
    ∧ ((build_group_address_entry ga none).address = ga)
    ∧ (order.Nodup →
        dictGet (aggregate_state order device communication_objects
          group_addresses).grouped ga = some e →
        e.address =
          (build_group_address_entry ga (dictGet group_addresses ga)).address) := by
  refine ⟨rfl, rfl, ?_⟩
  intro horder h
  obtain ⟨_, hgroup, _⟩ :=
    aggregate_inv device communication_objects group_addresses order horder
  rw [hgroup ga] at h
  exact (entry_formula_address device communication_objects group_addresses
    order ga h).1

/-- Witness for C10 in the tie world: the entry grouped under the key
`"gaB"` carries the table record's stored address `"gaA"`, which differs
from the grouping key. -/
theorem c10_address_field_witness :
    (["X2"] : List String).Nodup ∧
    dictGet (aggregate_state ["X2"] tieDevice tieCos tieGas).grouped "gaB" =
      some tieAggEntry ∧
    tieAggEntry.address =
      (build_group_address_entry "gaB" (dictGet tieGas "gaB")).address ∧
    tieAggEntry.address = "gaA" ∧
    (build_group_address_entry "gaB" (some gaTie)).address = gaTie.address :=
  ⟨by decide, by decide,
    (c10_address_field "gaB" gaTie tieDevice tieCos tieGas ["X2"] tieAggEntry).2.2
      (by decide) (by decide),
    by decide,
    (c10_address_field "gaB" gaTie tieDevice tieCos tieGas ["X2"] tieAggEntry).1⟩

/-- C2 (amended): the device ordering key is the tuple of the
dot-separated segments parsed as integers whenever every segment parses;
the fallback key `(0, 0, 0)` is produced exactly when some segment fails
integer parsing (a non-numeric segment) — not for a wrong segment count
with all-numeric segments, which yields a tuple of that count.  The
fallback key `(0, 0, 0)` orders no later than any triple of nonnegative
integers. -/
theorem c2_device_sort_key (s : String) (ks : List Int) :
    (parseSegments (splitOnChar '.' s.data) = some ks →
      individual_address_sort_key s = ks)
    ∧ (parseSegments (splitOnChar '.' s.data) = none →
      individual_address_sort_key s = [0, 0, 0])
    ∧ (∀ a b c : Int, 0 ≤ a → 0 ≤ b → 0 ≤ c →
        listIntLe [0, 0, 0] [a, b, c] = true) := by
  refine ⟨?_, ?_, ?_⟩
  · intro h
    unfold individual_address_sort_key
    rw [h]
  · intro h
    unfold individual_address_sort_key
    rw [h]
  · intro a b c ha hb hc
    by_cases h1 : (0 : Int) < a
    · simp [listIntLe, h1]
    · have ha0 : a = 0 := le_antisymm (not_lt.mp h1) ha
      subst ha0
      by_cases h2 : (0 : Int) < b
      · simp [listIntLe, h2]
      · have hb0 : b = 0 := le_antisymm (not_lt.mp h2) hb
        subst hb0
        by_cases h3 : (0 : Int) < c
        · simp [listIntLe, h3]
        · have hc0 : c = 0 := le_antisymm (not_lt.mp h3) hc
          subst hc0
          simp [listIntLe]

/-- Witness for C2: a well-formed address keys to its numeric triple, a
non-numeric segment falls back to `(0, 0, 0)`, and `(0, 0, 0)` orders
before the sample key `(1, 1, 7)`. -/
theorem c2_device_sort_key_witness :
    individual_address_sort_key "1.1.5" = [1, 1, 5]
    ∧ individual_address_sort_key "x.1.2" = [0, 0, 0]
    ∧ listIntLe [0, 0, 0] [1, 1, 7] = true :=
  ⟨(c2_device_sort_key "1.1.5" [1, 1, 5]).1 (by decide),
    (c2_device_sort_key "x.1.2" [0, 0, 0]).2.1 (by decide),
    (c2_device_sort_key "x.1.2" [0, 0, 0]).2.2 1 1 7 (by decide) (by decide) (by decide)⟩

/-- Counterexample for C2 as stated: the address `"1.2"` has a segment
count other than three, yet its key is `(1, 2)` — the tuple of its two
parsed segments — not the fixed triple `(0, 0, 0)`: `int(...)` fails on
no segment, so the `ValueError` fallback is not taken. -/
theorem c2_counterexample :
    (splitOnChar '.' "1.2".data).length = 2
    ∧ individual_address_sort_key "1.2" = [1, 2]
    ∧ individual_address_sort_key "1.2" ≠ [0, 0, 0] := by decide

/-- C7: an endpoint identifier absent from the endpoint table is skipped
without error and contributes nothing: the aggregation result equals the
result for the same device with that identifier removed from the
enumeration. -/
theorem c7_missing_endpoint_skipped (device : Device)
    (communication_objects : List (String × CommunicationObject))
    (group_addresses : List (String × GroupAddress))
    (cid : String) (o1 o2 : List String)
    (h : dictGet communication_objects cid = none) :
    collect_group_addresses (o1 ++ cid :: o2) device communication_objects
        group_addresses =
      collect_group_addresses (o1 ++ o2) device communication_objects
        group_addresses := by
  have hstate : aggregate_state (o1 ++ cid :: o2) device communication_objects
      group_addresses =
      aggregate_state (o1 ++ o2) device communication_objects group_addresses := by
    unfold aggregate_state
    rw [List.foldl_append, List.foldl_append, List.foldl_cons]
    have hskip : ∀ st : AggState,
        processCommObject device communication_objects group_addresses st cid = st := by
      intro st
      unfold processCommObject
      rw [h]
    rw [hskip]
  unfold collect_group_addresses
  rw [hstate]

/-- Witness for C7: the unresolvable identifier `"EX"` inserted between
`"E1"` and `"E2"` leaves the sample aggregation unchanged. -/
theorem c7_missing_endpoint_skipped_witness :
    dictGet sampleCos "EX" = none ∧
    collect_group_addresses (["E1"] ++ "EX" :: ["E2"]) sampleDevice sampleCos
        sampleGas =
      collect_group_addresses (["E1"] ++ ["E2"]) sampleDevice sampleCos sampleGas :=
  ⟨by decide,
    c7_missing_endpoint_skipped sampleDevice sampleCos sampleGas "EX" ["E1"] ["E2"]
      (by decide)⟩

/-- C8: both export operations return the location they write; with no
explicit output location that location is the input location's base name
with the fixed suffix `_logical_devices.json`, and the written payload's
`project` field is the input's `info` block (`{}` when absent). -/
theorem c8_export_output_location (input : PyPath) (project : KNXProject)
    (out : PyPath) (devs : List LogicalDeviceSummary) :
    (export_logical_devices input project (some out) =
      (build_payload project).map (fun pl => (out, pl)))
    ∧ (export_logical_devices input project none =
      (build_payload project).map (fun pl =>
        (withName input (pyStem input.name ++ "_logical_devices.json"), pl)))
    ∧ (export_logical_devices_from_knxproj input project (some out) =
      (build_payload project).map (fun pl => (out, pl)))
    ∧ (export_logical_devices_from_knxproj input project none =
      (build_payload project).map (fun pl =>
        (withName input (pyStem input.name ++ "_logical_devices.json"), pl)))
    ∧ (build_logical_device_view project = .ok devs →
        build_payload project = .ok { project := project.info, devices := devs }) := by
  refine ⟨?_, ?_, ?_, ?_, ?_⟩
  · unfold export_logical_devices
    cases build_payload project <;> rfl
  · unfold export_logical_devices
    cases build_payload project <;> rfl
  · unfold export_logical_devices_from_knxproj
    cases build_payload project <;> rfl
  · unfold export_logical_devices_from_knxproj
    cases build_payload project <;> rfl
  · intro h
    unfold build_payload
    rw [h]

/-- C1: the summary contains each bus address at most once (the
accumulated map's keys are duplicate-free), and within each bus entry
each `(bus address, endpoint identifier)` pair yields at most one link —
the link identifiers of one entry are duplicate-free, both before and
after sorting — even though the sample link lists repeat addresses and
identifiers reachable both directly and through channels. -/
theorem c1_unique_pairs (device : Device)
    (communication_objects : List (String × CommunicationObject))
    (group_addresses : List (String × GroupAddress)) :
    (((aggregate_state (gather_comm_object_ids device) device communication_objects
        group_addresses).grouped.map Prod.fst).Nodup)
    ∧ (∀ ga e, dictGet (aggregate_state (gather_comm_object_ids device) device
        communication_objects group_addresses).grouped ga = some e →
        (e.communication_objects.map (fun l => l.id)).Nodup)
    ∧ (∀ out, collect_group_addresses (gather_comm_object_ids device) device
        communication_objects group_addresses = .ok out →
        ∀ e ∈ out, (e.communication_objects.map (fun l => l.id)).Nodup) := by
  have hnd := nodup_gather device
  obtain ⟨_, _, hkeys⟩ :=
    aggregate_inv device communication_objects group_addresses _ hnd
  refine ⟨hkeys, ?_, ?_⟩
  · intro ga e h
    exact agg_entry_ids_nodup device communication_objects group_addresses hnd h
  · intro out hout e he
    obtain ⟨e₀, he₀, rfl⟩ :=
      collect_ok_entries _ device communication_objects group_addresses out hout e he
    obtain ⟨ga, hga⟩ := mem_map_snd_dictGet hkeys he₀
    have hids := agg_entry_ids_nodup device communication_objects group_addresses hnd hga
    have hperm : (((sortEntryLinks e₀).communication_objects).map (fun l => l.id)).Perm
        ((e₀.communication_objects).map (fun l => l.id)) :=
      List.Perm.map (fun l => l.id) (stableSort_perm linkLe e₀.communication_objects)
    exact hperm.nodup_iff.mpr hids

/-- Witness for C1 at the sample device, whose endpoint `"E1"` lists
`"1/0/5"` twice and whose channel endpoint `"E2"` lists it again. -/
theorem c1_unique_pairs_witness :
    dictGet (aggregate_state (gather_comm_object_ids sampleDevice) sampleDevice
        sampleCos sampleGas).grouped "1/0/5" = some sampleAggLight ∧
    (sampleAggLight.communication_objects.map (fun l => l.id)).Nodup ∧
    collect_group_addresses (gather_comm_object_ids sampleDevice) sampleDevice
        sampleCos sampleGas = Except.ok sampleCollect ∧
    sampleCollect.headD junkEntry ∈ sampleCollect ∧
    ((sampleCollect.headD junkEntry).communication_objects.map (fun l => l.id)).Nodup :=
  ⟨by decide,
    (c1_unique_pairs sampleDevice sampleCos sampleGas).2.1 "1/0/5" sampleAggLight
      (by decide),
    by decide, by decide,
    (c1_unique_pairs sampleDevice sampleCos sampleGas).2.2 sampleCollect (by decide)
      (sampleCollect.headD junkEntry) (by decide)⟩

theorem entryLe_trans (group_addresses : List (String × GroupAddress)) :
    ∀ a b c, entryLe group_addresses a b = true → entryLe group_addresses b c = true →
      entryLe group_addresses a c = true :=
  fun _ _ _ h1 h2 => busKeyLe_trans h1 h2

theorem entryLe_total (group_addresses : List (String × GroupAddress)) :
    ∀ a b, entryLe group_addresses a b = true ∨ entryLe group_addresses b a = true :=
  fun a b => busKeyLe_total (bus_sort_key group_addresses a) (bus_sort_key group_addresses b)

theorem linkLe_eq_true_iff {a b : CommunicationObjectLink} :
    linkLe a b = true ↔ LinkKeyLe a b := by
  unfold linkLe LinkKeyLe
  by_cases h1 : a.number < b.number
  · simp [h1]
  · by_cases h2 : b.number < a.number
    · have hne : ¬ a.number = b.number := by omega
      simp [h1, h2, hne]
    · have heq : a.number = b.number := by omega
      simp [h1, h2, heq]

theorem buildSummaries_ok (communication_objects : List (String × CommunicationObject))
    (group_addresses : List (String × GroupAddress)) :
    ∀ (devs : List (String × Device)) (res : List LogicalDeviceSummary),
    buildSummaries communication_objects group_addresses devs = .ok res →
    ∀ s ∈ res, ∃ p ∈ devs,
      collect_group_addresses (gather_comm_object_ids p.2) p.2 communication_objects
        group_addresses = .ok s.group_addresses := by
  intro devs
  induction devs with
  | nil =>
    intro res h s hs
    unfold buildSummaries at h
    injection h with h2
    subst h2
    cases hs
  | cons p rest ih =>
    intro res h s hs
    obtain ⟨addr, dev⟩ := p
    unfold buildSummaries at h
    cases hcol : collect_group_addresses (gather_comm_object_ids dev) dev
        communication_objects group_addresses with
    | error err => rw [hcol] at h; cases h
    | ok grouped =>
      rw [hcol] at h
      cases hrest : buildSummaries communication_objects group_addresses rest with
      | error err => rw [hrest] at h; cases h
      | ok others =>
        rw [hrest] at h
        injection h with h2
        subst h2
        rcases List.mem_cons.mp hs with rfl | hs2
        · exact ⟨(addr, dev), List.mem_cons_self _ _, hcol⟩
        · obtain ⟨q, hq, hcq⟩ := ih others hrest s hs2
          exact ⟨q, List.mem_cons_of_mem _ hq, hcq⟩

/-- C6: within every bus entry of every device summary, the links are
sorted ascending by the tuple `(endpoint number, endpoint identifier)`,
the identifier breaking ties between endpoints sharing a number. -/
theorem c6_links_sorted (project : KNXProject) (res : List LogicalDeviceSummary)
    (h : build_logical_device_view project = .ok res) :
    ∀ s ∈ res, ∀ e ∈ s.group_addresses,
      e.communication_objects.Pairwise LinkKeyLe := by
  intro s hs e he
  unfold build_logical_device_view at h
  obtain ⟨p, _, hcol⟩ :=
    buildSummaries_ok project.communication_objects project.group_addresses _ res h s hs
  obtain ⟨e₀, _, rfl⟩ :=
    collect_ok_entries _ p.2 project.communication_objects project.group_addresses _
      hcol e he
  have hpw := pairwise_stableSort linkLe (fun a b c h1 h2 => linkLe_trans h1 h2)
    linkLe_total e₀.communication_objects
  exact hpw.imp (fun hab => linkLe_eq_true_iff.mp hab)

/-- Witness for C6: in the sample view the bus `"1/0/5"` carries the two
links of `"E1"` and `"E2"`, both numbered 3, ordered by identifier. -/
theorem c6_links_sorted_witness :
    build_logical_device_view sampleProject = Except.ok sampleView ∧
    sampleSummary ∈ sampleView ∧
    sampleEntry ∈ sampleSummary.group_addresses ∧
    sampleEntry.communication_objects.Pairwise LinkKeyLe :=
  ⟨by decide, by decide, by decide,
    c6_links_sorted sampleProject sampleView (by decide) sampleSummary (by decide)
      sampleEntry (by decide)⟩

/-- C3 (amended): sorting the accumulated bus entries succeeds whenever
the bus sort keys do not mix the numeric and the string kind, and then
returns a permutation of the entries that is totally ordered by the key;
when one device references both a known bus (numeric key) and a stub bus
(string key), Python's `sorted` compares an `int` with a `str` and
raises `TypeError` instead (see the counterexample). -/
theorem c3_sort_homogeneous (grouped : List (String × LogicalDeviceGroupAddress))
    (group_addresses : List (String × GroupAddress))
    (h : ¬ (((grouped.map Prod.snd).map (bus_sort_key group_addresses)).any
        BusSortKey.isNum = true ∧
      ((grouped.map Prod.snd).map (bus_sort_key group_addresses)).any
        BusSortKey.isStr = true)) :
    sort_group_addresses grouped group_addresses =
      .ok (stableSort (entryLe group_addresses) (grouped.map Prod.snd))
    ∧ (stableSort (entryLe group_addresses) (grouped.map Prod.snd)).Perm
        (grouped.map Prod.snd)
    ∧ (stableSort (entryLe group_addresses) (grouped.map Prod.snd)).Pairwise
        (fun a b => entryLe group_addresses a b = true) := by
  refine ⟨?_, stableSort_perm _ _, ?_⟩
  · unfold sort_group_addresses
    rw [if_neg (by rw [Bool.and_eq_true]; exact h)]
  · exact pairwise_stableSort (entryLe group_addresses) (entryLe_trans group_addresses)
      (entryLe_total group_addresses) (grouped.map Prod.snd)

/-- Witness for C3 at a two-entry map whose keys are both numeric. -/
theorem c3_sort_homogeneous_witness :
    sort_group_addresses c3wGrouped sampleGas =
      Except.ok (stableSort (entryLe sampleGas) (c3wGrouped.map Prod.snd))
    ∧ (stableSort (entryLe sampleGas) (c3wGrouped.map Prod.snd)).Perm
        (c3wGrouped.map Prod.snd)
    ∧ (stableSort (entryLe sampleGas) (c3wGrouped.map Prod.snd)).Pairwise
        (fun a b => entryLe sampleGas a b = true) :=
  c3_sort_homogeneous c3wGrouped sampleGas (by decide)

/-- Counterexample for C3 as stated: the device `mixDevice` references
the known bus `"1/0/5"` (numeric key) and the stub bus `"9/9/9"` (string
key); sorting its accumulated entries does not succeed — the embedded
`TypeError` is raised. -/
theorem c3_counterexample :
    collect_group_addresses ["M1"] mixDevice mixCos mixGas =
      Except.error mixedKeyError := by decide

theorem map_insertLe {α : Type} (le : α → α → Bool) (g : α → α)
    (hg : ∀ a b, le (g a) (g b) = le a b) (a : α) (l : List α) :
    (insertLe le a l).map g = insertLe le (g a) (l.map g) := by
  induction l with
  | nil => rfl
  | cons b u ih =>
    rw [List.map_cons]
    simp only [insertLe]
    rw [hg a b]
    by_cases h : le a b = true
    · rw [if_pos h, if_pos h]
      rfl
    · rw [if_neg h, if_neg h, List.map_cons, ih]

theorem map_stableSort_keyPreserving {α : Type} (le : α → α → Bool) (g : α → α)
    (hg : ∀ a b, le (g a) (g b) = le a b) (l : List α) :
    (stableSort le l).map g = stableSort le (l.map g) := by
  induction l with
  | nil => rfl
  | cons a t ih =>
    rw [List.map_cons]
    simp only [stableSort]
    rw [map_insertLe le g hg, ih]

theorem map_snd_eq_keys_map {α : Type} (l : List (String × α))
    (hn : (l.map Prod.fst).Nodup) (d : α) :
    l.map Prod.snd = (l.map Prod.fst).map (fun k => (dictGet l k).getD d) := by
  rw [List.map_map]
  apply List.map_congr_left
  intro p hp
  have hg := dictGet_of_mem_nodup hn (k := p.1) (v := p.2)
    (by rw [Prod.mk.eta]; exact hp)
  simp [Function.comp, hg]

theorem bus_sort_key_sortEntryLinks (group_addresses : List (String × GroupAddress))
    (e : LogicalDeviceGroupAddress) :
    bus_sort_key group_addresses (sortEntryLinks e) = bus_sort_key group_addresses e := rfl

theorem entryLe_sortEntryLinks (group_addresses : List (String × GroupAddress))
    (a b : LogicalDeviceGroupAddress) :
    entryLe group_addresses (sortEntryLinks a) (sortEntryLinks b) =
      entryLe group_addresses a b := rfl

theorem group_key_of_entry (device : Device)
    (communication_objects : List (String × CommunicationObject))
    (group_addresses : List (String × GroupAddress))
    (order : List String) (ga : String) {e : LogicalDeviceGroupAddress}
    (h : entry_formula device communication_objects group_addresses order ga = some e) :
    bus_sort_key group_addresses e = group_key_for group_addresses ga := by
  have ha := (entry_formula_address device communication_objects group_addresses
    order ga h).1
  unfold bus_sort_key group_key_for
  rw [ha]
  rfl

theorem entry_formula_of_referenced (device : Device)
    (communication_objects : List (String × CommunicationObject))
    (group_addresses : List (String × GroupAddress))
    (order : List String) (ga : String)
    (h : contributors communication_objects order ga ≠ []) :
    entry_formula device communication_objects group_addresses order ga =
      some { build_group_address_entry ga (dictGet group_addresses ga) with
             communication_objects :=
               (contributors communication_objects order ga).filterMap
                 (linkFor device communication_objects) } := by
  unfold entry_formula
  rw [if_neg h]

/-- C9 (amended): the aggregation result is independent of the
enumeration order of the endpoint-identifier set whenever distinct
referenced bus addresses have distinct bus sort keys.  (Within each bus
entry the link order is always deterministic — the dedup makes the
`(number, identifier)` keys unique — but with equal entry sort keys,
e.g. a stub address equal to a table record's stored address, the
device-level entry order follows first-encounter order and varies with
the enumeration; see the counterexample.) -/
theorem c9_order_independent (device : Device)
    (communication_objects : List (String × CommunicationObject))
    (group_addresses : List (String × GroupAddress))
    (o1 o2 : List String)
    (h1 : o1.Nodup) (h2 : o2.Nodup) (hp : o1.Perm o2)
    (hkeys : ∀ ga1 ga2, referencedBy communication_objects o1 ga1 →
      referencedBy communication_objects o1 ga2 → ga1 ≠ ga2 →
      group_key_for group_addresses ga1 ≠ group_key_for group_addresses ga2) :
    collect_group_addresses o1 device communication_objects group_addresses =
      collect_group_addresses o2 device communication_objects group_addresses := by
  obtain ⟨_, hg1, hk1⟩ := aggregate_inv device communication_objects group_addresses o1 h1
  obtain ⟨_, hg2, hk2⟩ := aggregate_inv device communication_objects group_addresses o2 h2
  have hcontr : ∀ ga, (contributors communication_objects o1 ga).Perm
      (contributors communication_objects o2 ga) := fun ga => hp.filter _
  have hnil : ∀ ga, contributors communication_objects o1 ga = [] ↔
      contributors communication_objects o2 ga = [] := by
    intro ga
    rw [← List.length_eq_zero, ← List.length_eq_zero, (hcontr ga).length_eq]
  have hmem1 : ∀ ga, ga ∈ (aggregate_state o1 device communication_objects
      group_addresses).grouped.map Prod.fst ↔
      contributors communication_objects o1 ga ≠ [] := by
    intro ga
    rw [← dictGet_isSome_iff, hg1 ga, entry_formula_isSome]
  have hmem2 : ∀ ga, ga ∈ (aggregate_state o2 device communication_objects
      group_addresses).grouped.map Prod.fst ↔
      contributors communication_objects o2 ga ≠ [] := by
    intro ga
    rw [← dictGet_isSome_iff, hg2 ga, entry_formula_isSome]
  have hkeysperm : ((aggregate_state o1 device communication_objects
      group_addresses).grouped.map Prod.fst).Perm
      ((aggregate_state o2 device communication_objects
        group_addresses).grouped.map Prod.fst) := by
    rw [List.perm_ext_iff_of_nodup hk1 hk2]
    intro ga
    rw [hmem1 ga, hmem2 ga]
    exact not_iff_not.mpr (hnil ga)
  -- the fully sorted entry built for one referenced bus address agrees
  -- between the two enumerations
  have hF : ∀ ga, contributors communication_objects o1 ga ≠ [] →
      sortEntryLinks ((entry_formula device communication_objects group_addresses
        o1 ga).getD junkEntry) =
      sortEntryLinks ((entry_formula device communication_objects group_addresses
        o2 ga).getD junkEntry) := by
    intro ga hne1
    have hne2 : contributors communication_objects o2 ga ≠ [] :=
      fun hh => hne1 ((hnil ga).mpr hh)
    rw [entry_formula_of_referenced device communication_objects group_addresses o1 ga hne1]
    rw [entry_formula_of_referenced device communication_objects group_addresses o2 ga hne2]
    have hpermfm : ((contributors communication_objects o1 ga).filterMap
        (linkFor device communication_objects)).Perm
        ((contributors communication_objects o2 ga).filterMap
          (linkFor device communication_objects)) :=
      List.Perm.filterMap _ (hcontr ga)
    have hsorteq : stableSort linkLe ((contributors communication_objects o1 ga).filterMap
        (linkFor device communication_objects)) =
        stableSort linkLe ((contributors communication_objects o2 ga).filterMap
          (linkFor device communication_objects)) := by
      apply sorted_perm_eq linkLe
      · exact ((stableSort_perm _ _).trans hpermfm).trans (stableSort_perm _ _).symm
      · exact pairwise_stableSort linkLe (fun a b c ha hb => linkLe_trans ha hb)
          linkLe_total _
      · exact pairwise_stableSort linkLe (fun a b c ha hb => linkLe_trans ha hb)
          linkLe_total _
      · intro a ha b hb hab hba
        have ha2 := mem_filterMap_linkFor
          ((stableSort_perm linkLe _).mem_iff.mp ha)
        have hb2 := mem_filterMap_linkFor
          ((stableSort_perm linkLe _).mem_iff.mp hb)
        obtain ⟨_, hid⟩ := linkLe_antisymm_key hab hba
        rw [hid] at ha2
        rw [ha2] at hb2
        exact Option.some.inj hb2
    simp only [Option.getD_some, sortEntryLinks, hsorteq]
  -- each run's final entry list, expressed over its own key list
  have hM1 : ((aggregate_state o1 device communication_objects
      group_addresses).grouped.map Prod.snd).map sortEntryLinks =
      ((aggregate_state o1 device communication_objects
        group_addresses).grouped.map Prod.fst).map
        (fun k => sortEntryLinks ((entry_formula device communication_objects
          group_addresses o1 k).getD junkEntry)) := by
    rw [map_snd_eq_keys_map _ hk1 junkEntry, List.map_map]
    apply List.map_congr_left
    intro k _
    rw [Function.comp_apply, hg1 k]
  have hM2 : ((aggregate_state o2 device communication_objects
      group_addresses).grouped.map Prod.snd).map sortEntryLinks =
      ((aggregate_state o2 device communication_objects
        group_addresses).grouped.map Prod.fst).map
        (fun k => sortEntryLinks ((entry_formula device communication_objects
          group_addresses o2 k).getD junkEntry)) := by
    rw [map_snd_eq_keys_map _ hk2 junkEntry, List.map_map]
    apply List.map_congr_left
    intro k _
    rw [Function.comp_apply, hg2 k]
  have hcongr : ((aggregate_state o1 device communication_objects
      group_addresses).grouped.map Prod.fst).map
        (fun k => sortEntryLinks ((entry_formula device communication_objects
          group_addresses o1 k).getD junkEntry)) =
      ((aggregate_state o1 device communication_objects
        group_addresses).grouped.map Prod.fst).map
        (fun k => sortEntryLinks ((entry_formula device communication_objects
          group_addresses o2 k).getD junkEntry)) := by
    apply List.map_congr_left
    intro k hk
    exact hF k ((hmem1 k).mp hk)
  -- the two final entry lists are permutations of each other
  have hM : (((aggregate_state o1 device communication_objects
      group_addresses).grouped.map Prod.snd).map sortEntryLinks).Perm
      (((aggregate_state o2 device communication_objects
        group_addresses).grouped.map Prod.snd).map sortEntryLinks) := by
    rw [hM1, hM2, hcongr]
    exact List.Perm.map _ hkeysperm
  -- the bus sort keys of the two runs agree up to permutation, so the
  -- mixed-kind test decides the same way
  have hkl : (((aggregate_state o1 device communication_objects
      group_addresses).grouped.map Prod.snd).map
        (bus_sort_key group_addresses)).Perm
      (((aggregate_state o2 device communication_objects
        group_addresses).grouped.map Prod.snd).map
          (bus_sort_key group_addresses)) := by
    have he1 : (((aggregate_state o1 device communication_objects
        group_addresses).grouped.map Prod.snd).map sortEntryLinks).map
          (bus_sort_key group_addresses) =
        ((aggregate_state o1 device communication_objects
          group_addresses).grouped.map Prod.snd).map (bus_sort_key group_addresses) := by
      rw [List.map_map]
      apply List.map_congr_left
      intro e _
      rw [Function.comp_apply, bus_sort_key_sortEntryLinks]
    have he2 : (((aggregate_state o2 device communication_objects
        group_addresses).grouped.map Prod.snd).map sortEntryLinks).map
          (bus_sort_key group_addresses) =
        ((aggregate_state o2 device communication_objects
          group_addresses).grouped.map Prod.snd).map (bus_sort_key group_addresses) := by
      rw [List.map_map]
      apply List.map_congr_left
      intro e _
      rw [Function.comp_apply, bus_sort_key_sortEntryLinks]
    rw [← he1, ← he2]
    exact List.Perm.map _ hM
  have hany : ∀ p : BusSortKey → Bool,
      (((aggregate_state o1 device communication_objects
        group_addresses).grouped.map Prod.snd).map
          (bus_sort_key group_addresses)).any p =
      (((aggregate_state o2 device communication_objects
        group_addresses).grouped.map Prod.snd).map
          (bus_sort_key group_addresses)).any p := by
    intro p
    rw [Bool.eq_iff_iff, List.any_eq_true, List.any_eq_true]
    constructor
    · rintro ⟨x, hx, hpx⟩
      exact ⟨x, hkl.mem_iff.mp hx, hpx⟩
    · rintro ⟨x, hx, hpx⟩
      exact ⟨x, hkl.mem_iff.mpr hx, hpx⟩
  -- the bus sort key of the per-address final entry is `group_key_for`
  have hgk : ∀ ga, contributors communication_objects o1 ga ≠ [] →
      bus_sort_key group_addresses (sortEntryLinks ((entry_formula device
        communication_objects group_addresses o1 ga).getD junkEntry)) =
      group_key_for group_addresses ga := by
    intro ga hne
    rw [bus_sort_key_sortEntryLinks,
      entry_formula_of_referenced device communication_objects group_addresses o1 ga hne,
      Option.getD_some]
    exact group_key_of_entry device communication_objects group_addresses o1 ga
      (entry_formula_of_referenced device communication_objects group_addresses o1 ga hne)
  -- assemble: either both runs raise, or both return the same sorted list
  unfold collect_group_addresses sort_group_addresses
  rw [← hany BusSortKey.isNum, ← hany BusSortKey.isStr]
  by_cases hmix : ((((aggregate_state o1 device communication_objects
      group_addresses).grouped.map Prod.snd).map
        (bus_sort_key group_addresses)).any BusSortKey.isNum &&
      (((aggregate_state o1 device communication_objects
        group_addresses).grouped.map Prod.snd).map
          (bus_sort_key group_addresses)).any BusSortKey.isStr) = true
  · rw [if_pos hmix, if_pos hmix]
  · rw [if_neg hmix, if_neg hmix]
    have hfinal : (stableSort (entryLe group_addresses)
        ((aggregate_state o1 device communication_objects
          group_addresses).grouped.map Prod.snd)).map sortEntryLinks =
        (stableSort (entryLe group_addresses)
          ((aggregate_state o2 device communication_objects
            group_addresses).grouped.map Prod.snd)).map sortEntryLinks := by
      rw [map_stableSort_keyPreserving (entryLe group_addresses) sortEntryLinks
        (entryLe_sortEntryLinks group_addresses)]
      rw [map_stableSort_keyPreserving (entryLe group_addresses) sortEntryLinks
        (entryLe_sortEntryLinks group_addresses)]
      apply sorted_perm_eq (entryLe group_addresses)
      · exact ((stableSort_perm _ _).trans hM).trans (stableSort_perm _ _).symm
      · exact pairwise_stableSort _ (entryLe_trans group_addresses)
          (entryLe_total group_addresses) _
      · exact pairwise_stableSort _ (entryLe_trans group_addresses)
          (entryLe_total group_addresses) _
      · intro a ha b hb hab hba
        have ha2 : a ∈ ((aggregate_state o1 device communication_objects
            group_addresses).grouped.map Prod.fst).map
            (fun k => sortEntryLinks ((entry_formula device communication_objects
              group_addresses o1 k).getD junkEntry)) := by
          rw [← hM1]
          exact (stableSort_perm _ _).mem_iff.mp ha
        have hb2 : b ∈ ((aggregate_state o1 device communication_objects
            group_addresses).grouped.map Prod.fst).map
            (fun k => sortEntryLinks ((entry_formula device communication_objects
              group_addresses o1 k).getD junkEntry)) := by
          rw [← hM1]
          exact (stableSort_perm _ _).mem_iff.mp hb
        obtain ⟨ga1, hga1, ha3⟩ := List.mem_map.mp ha2
        obtain ⟨ga2, hga2, hb3⟩ := List.mem_map.mp hb2
        have href1 := (hmem1 ga1).mp hga1
        have href2 := (hmem1 ga2).mp hga2
        have hab2 : busKeyLe (bus_sort_key group_addresses a)
            (bus_sort_key group_addresses b) = true := hab
        have hba2 : busKeyLe (bus_sort_key group_addresses b)
            (bus_sort_key group_addresses a) = true := hba
        have hkeyeq := busKeyLe_antisymm hab2 hba2
        have hka : bus_sort_key group_addresses a = group_key_for group_addresses ga1 := by
          rw [← ha3]
          exact hgk ga1 href1
        have hkb : bus_sort_key group_addresses b = group_key_for group_addresses ga2 := by
          rw [← hb3]
          exact hgk ga2 href2
        by_cases hga : ga1 = ga2
        · rw [← ha3, ← hb3, hga]
        · exfalso
          apply hkeys ga1 ga2 href1 href2 hga
          rw [← hka, ← hkb]
          exact hkeyeq
    exact congrArg Except.ok hfinal

/-- Counterexample for C9 as stated: in the tie world the stub entry for
`"gaA"` and the record entry keyed `"gaB"` share the string sort key
`"gaA"`, so the stable entry sort preserves first-encounter order and
the two enumeration orders of the endpoint set produce different
outputs. -/
theorem c9_counterexample :
    (["X1", "X2"] : List String).Nodup ∧ (["X2", "X1"] : List String).Nodup ∧
    (["X1", "X2"] : List String).Perm ["X2", "X1"] ∧
    collect_group_addresses ["X1", "X2"] tieDevice tieCos tieGas ≠
      collect_group_addresses ["X2", "X1"] tieDevice tieCos tieGas := by
  refine ⟨by decide, by decide, List.Perm.swap _ _ _, by decide⟩

/-- Witness for C9 in the single-bus world: only `"1/0/5"` is ever
referenced, the distinct-keys hypothesis holds vacuously, and the two
enumeration orders agree. -/
theorem c9_order_independent_witness :
    (["a", "b"] : List String).Nodup ∧ (["b", "a"] : List String).Nodup ∧
    (["a", "b"] : List String).Perm ["b", "a"] ∧
    collect_group_addresses ["a", "b"] tieDevice wCos wGas =
      collect_group_addresses ["b", "a"] tieDevice wCos wGas := by
  refine ⟨by decide, by decide, List.Perm.swap _ _ _, ?_⟩
  have href : ∀ ga, referencedBy wCos ["a", "b"] ga → ga = "1/0/5" := by
    intro ga h
    obtain ⟨eid, hid⟩ := List.exists_mem_of_ne_nil _ h
    obtain ⟨hmemo, _, hlink⟩ := mem_contributors hid
    rcases List.mem_cons.mp hmemo with hida | hmemo2
    · subst hida
      have hli : linksOf wCos "a" = ["1/0/5"] := by decide
      rw [hli] at hlink
      exact List.mem_singleton.mp hlink
    · have hidb : eid = "b" := by
        rcases List.mem_cons.mp hmemo2 with h2 | h2
        · exact h2
        · cases h2
      subst hidb
      have hli : linksOf wCos "b" = ["1/0/5"] := by decide
      rw [hli] at hlink
      exact List.mem_singleton.mp hlink
  apply c9_order_independent tieDevice wCos wGas ["a", "b"] ["b", "a"]
    (by decide) (by decide) (List.Perm.swap _ _ _)
  intro ga1 ga2 hr1 hr2 hne
  exact absurd ((href ga1 hr1).trans (href ga2 hr2).symm) hne

/-- Witness for C8: exporting the empty project from
`/tmp/project.json` with no explicit output writes
`/tmp/project_logical_devices.json` and carries the `info` block. -/
theorem c8_export_output_location_witness :
    build_logical_device_view emptyProject = Except.ok [] ∧
    build_payload emptyProject =
      Except.ok { project := some "INFO", devices := ([] : List LogicalDeviceSummary) } ∧
    export_logical_devices samplePath emptyProject none =
      Except.ok (withName samplePath (pyStem samplePath.name ++ "_logical_devices.json"),
        { project := some "INFO", devices := [] }) ∧
    pyStem samplePath.name = "project" := by
  have h := c8_export_output_location samplePath emptyProject samplePath []
  refine ⟨by decide, h.2.2.2.2 (by decide), ?_, by decide⟩
  rw [h.2.1, h.2.2.2.2 (by decide)]
  rfl

end XKnx
